import Mathlib

/-!
Verification of the layout-model resolution engine of `mac2winKeyboard.py`
(macOS `.keylayout` to Windows `.klc` converter).

The Python source is shallowly embedded below.  Python values that may be a
string or `None` are modelled as `Option String` (`PyStr`); Python `dict`s are
modelled as association lists whose update keeps the position of an existing
key (Python dicts preserve insertion order and in-place value updates);
Python exceptions are modelled with `Except String`; Python `int` attributes
are modelled as `Int` with explicit decimal parsing.

Mutable aliasing in the source: `findOutputs` iterates over `self.key_list`,
mutates each entry in place, and appends the very same list objects to
`self.output_list`.  Every element of `output_list` is (an alias of) an
element of `key_list`, because `output_list` only ever receives `key_list`
entries.  Since each entry object is transformed exactly once per
`findOutputs` call and the transformation is a pure function of the entry
value and the registries, the value-level effect of one `findOutputs` call is:
`key_list` becomes `map T key_list`, and `output_list` becomes
`map T output_list ++ map T key_list`.  The embedding of `findOutputs` uses
exactly this value-level form.
-/

namespace Mac2Win

/-- A Python value that is either a string or `None`. -/
abbrev PyStr := Option String

/-- Python `'%s' % x`: `None` renders as `"None"`. -/
def pyShowStr : PyStr → String
  | none => "None"
  | some s => s

/-- Lookup in an association list (Python `d[k]` / `k in d`). -/
def alookup {α β : Type} [DecidableEq α] : List (α × β) → α → Option β
  | [], _ => none
  | (k, v) :: t, a => if k = a then some v else alookup t a

/-- Python `d[k] = v`: update an existing key in place, else append. -/
def dset {α β : Type} [DecidableEq α] : List (α × β) → α → β → List (α × β)
  | [], k, v => [(k, v)]
  | (k0, v0) :: t, k, v => if k0 = k then (k0, v) :: t else (k0, v0) :: dset t k v

/-- Python `list.remove(v)`: drop the first element equal to `v`. -/
def removeFirst {α : Type} [DecidableEq α] : List α → α → List α
  | [], _ => []
  | a :: t, v => if a = v then t else a :: removeFirst t v

/-- Accumulate the numeric value of a decimal digit list. -/
def natFromDigitsAux : List Char → Nat → Option Nat
  | [], acc => some acc
  | c :: t, acc =>
    if c.isDigit then natFromDigitsAux t (acc * 10 + (c.toNat - 48)) else none

/-- Parse a nonempty list of decimal digits. -/
def natFromDigits : List Char → Option Nat
  | [] => none
  | l => natFromDigitsAux l 0

/-- Python `int(s)` on a plain decimal literal with optional sign;
`none` models the raised `ValueError`/`TypeError`. -/
def pyInt (s : String) : Option Int :=
  match s.data with
  | '-' :: rest => (natFromDigits rest).map (fun n => -(n : Int))
  | l => (natFromDigits l).map (fun n => (n : Int))

/-- Numeric value of a hexadecimal digit. -/
def hexDigitVal (c : Char) : Option Nat :=
  if c.isDigit then some (c.toNat - 48)
  else if 'a' ≤ c ∧ c ≤ 'f' then some (c.toNat - 87)
  else if 'A' ≤ c ∧ c ≤ 'F' then some (c.toNat - 55)
  else none

/-- Accumulate the numeric value of a hex digit list. -/
def natFromHexAux : List Char → Nat → Option Nat
  | [], acc => some acc
  | c :: t, acc =>
    match hexDigitVal c with
    | some d => natFromHexAux t (acc * 16 + d)
    | none => none

/-- Python `int(s, 16)` on a plain hexadecimal literal. -/
def pyIntHex (s : String) : Option Int :=
  match s.data with
  | [] => none
  | l => (natFromHexAux l 0).map (fun n => (n : Int))

/-- Split a character list on whitespace runs, accumulating the current
word reversed. -/
def splitWSAux : List Char → List Char → List String
  | [], acc => if acc = [] then [] else [String.mk acc.reverse]
  | c :: t, acc =>
    if c.isWhitespace then
      if acc = [] then splitWSAux t []
      else String.mk acc.reverse :: splitWSAux t []
    else splitWSAux t (c :: acc)

/-- Python `s.split()`: split on whitespace, dropping empty pieces. -/
def pySplit (s : String) : List String :=
  splitWSAux s.data []

/-- Python `a.issubset(b)` on our list-modelled sets. -/
def issubset (a b : List String) : Bool :=
  a.all (fun x => b.contains x)

/-- Python `range(n)` over an `Int` bound (empty when `n ≤ 0`). -/
def rangeInt (n : Int) : List Int :=
  (List.range n.toNat).map Int.ofNat

/-- Largest element of a list of ints; `none` models `max([])` raising. -/
def maxInt : List Int → Option Int
  | [] => none
  | a :: t =>
    match maxInt t with
    | none => some a
    | some m => some (if a ≤ m then m else a)

/-- One element of `key_list` / `output_list`: the value of
`Key(...).data()`, i.e. `[str(keymap_set), int(key_index), int(key_code),
str(key_type), result]`, plus any `'@'` markers later appended at the tail by
`findOutputs` (`ext`). -/
structure KeyEntry where
  keymap_set : String
  key_index : Int
  key_code : Int
  key_type : String
  result : PyStr
  ext : List String
deriving DecidableEq, Repr

/-- One element of `action_list`: the value of `Action(...).data()`, i.e.
`[action, str(state), str(action_type), result]`, plus the fields later
appended at the tail by `matchActions` / `makeDeadKeyTable` (`ext`). -/
structure ActionEntry where
  action : Option String
  state : String
  action_type : String
  result : PyStr
  ext : List PyStr
deriving DecidableEq, Repr

/-- The mutable state of a `KeylayoutParser` instance. -/
structure KeylayoutParser where
  key_list : List KeyEntry
  action_list : List ActionEntry
  output_list : List KeyEntry
  action_basekeys : List (Option String × PyStr)
  deadkeys : List (String × PyStr)
  key_dict : List (PyStr × List (PyStr × PyStr))
  output_dict : List (Int × List (Int × PyStr))
  empty_actions : List (Option String)
  keymap_assignments : List (String × Int)
  number_of_keymaps : Int
deriving DecidableEq, Repr

/-- `KeylayoutParser.__init__`. -/
def initParser : KeylayoutParser :=
  { key_list := [], action_list := [], output_list := [], action_basekeys := []
    deadkeys := [], key_dict := [], output_dict := [], empty_actions := []
    keymap_assignments := [], number_of_keymaps := 0 }

/-! ### The parsed source tree

`KeylayoutParser.parse` walks `tree.getiterator()` and dispatches on the tags
`keyMapSelect`, `keyMapSet` and `actions`; all other elements are skipped.
The embedding keeps, for each relevant element, exactly the attributes the
source reads; an absent XML attribute is `none`. -/

/-- A `keyMapSelect` element: its `mapIndex` attribute and, for each child,
the child's `keys` attribute. -/
structure KMSelect where
  mapIndex : Option String
  children : List (Option String)
deriving DecidableEq, Repr

/-- A `key` element inside a keymap: `code`, `action` and `output`
attributes. -/
structure RawKey where
  code : Option String
  action : Option String
  output : Option String
deriving DecidableEq, Repr

/-- A `keyMap` element inside a `keyMapSet`: its `index` attribute and its
`key` children. -/
structure KeyMap where
  index : Option String
  keys : List RawKey
deriving DecidableEq, Repr

/-- A `keyMapSet` element: its `id` attribute and its keymap children. -/
structure KMSet where
  id : Option String
  keymaps : List KeyMap
deriving DecidableEq, Repr

/-- A `when` element inside an `action`: `state`, `next`, `output`
attributes. -/
structure RawActionState where
  state : Option String
  next : Option String
  output : Option String
deriving DecidableEq, Repr

/-- An `action` element: its `id` attribute and its `when` children. -/
structure RawAction where
  id : Option String
  states : List RawActionState
deriving DecidableEq, Repr

/-- One element yielded by `tree.getiterator()`, classified by tag. -/
inductive TreeElem where
  | kmSelect : KMSelect → TreeElem
  | kmSet : KMSet → TreeElem
  | actions : List RawAction → TreeElem
  | other : TreeElem
deriving DecidableEq, Repr

/-- A parsed source tree: the document-order sequence of elements. -/
abbrev Tree := List TreeElem

/-- The modifier flag sets of `KeylayoutParser.parse`, lines 140-162. -/
def default_max : List String := pySplit "command? caps?"

/-- Minimal flag set for the `default` label. -/
def default_min : List String := pySplit ""

/-- Maximal flag set for the `alt` label. -/
def alt_max : List String := pySplit "anyOption caps? command?"

/-- Minimal flag set for the `alt` label. -/
def alt_min : List String := pySplit "anyOption"

/-- Maximal flag set for the `shift` label. -/
def shift_max : List String := pySplit "anyShift caps? command?"

/-- Minimal flag set for the `shift` label. -/
def shift_min : List String := pySplit "anyShift"

/-- Maximal flag set for the `altshift` label. -/
def altshift_max : List String := pySplit "anyShift anyOption caps? command?"

/-- Minimal flag set for the `altshift` label. -/
def altshift_min : List String := pySplit "anyShift anyOption"

/-- Maximal flag set for the `cmd` label. -/
def cmd_max : List String := pySplit "command caps? anyShift? anyOption?"

/-- Minimal flag set for the `cmd` label. -/
def cmd_min : List String := pySplit "command"

/-- Maximal flag set for the `caps` label. -/
def caps_max : List String := pySplit "caps anyShift? command?"

/-- Minimal flag set for the `caps` label. -/
def caps_min : List String := pySplit "caps"

/-- Maximal flag set for the `cmdcaps` label. -/
def cmdcaps_max : List String := pySplit "command caps anyShift?"

/-- Minimal flag set for the `cmdcaps` label. -/
def cmdcaps_min : List String := pySplit "command caps"

/-- Maximal flag set for the `shiftcaps` label. -/
def shiftcaps_max : List String := pySplit "anyShift caps anyOption?"

/-- Minimal flag set for the `shiftcaps` label. -/
def shiftcaps_min : List String := pySplit "anyShift caps"

/-- The eight canonical labels with their (max, min) flag sets, in the order
the source tests them (lines 173-189). -/
def canonicalTriples : List (List String × List String × String) :=
  [ (default_max, default_min, "default")
  , (shift_max, shift_min, "shift")
  , (alt_max, alt_min, "alt")
  , (altshift_max, altshift_min, "altshift")
  , (cmd_max, cmd_min, "cmd")
  , (caps_max, caps_min, "caps")
  , (cmdcaps_max, cmdcaps_min, "cmdcaps")
  , (shiftcaps_max, shiftcaps_min, "shiftcaps") ]

/-- `KeylayoutParser.checkSet` (lines 125-134): assign `int(keymap)` to the
canonical label `string` when `maxset.issuperset(states)` and
`minset.issubset(states)`.  The `int` conversion happens only when the test
succeeds and can raise. -/
def checkSet (assignments : List (String × Int)) (states : List String)
    (keymap : Option String) (maxset minset : List String) (string : String) :
    Except String (List (String × Int)) :=
  if issubset states maxset && issubset minset states then
    match keymap with
    | none => .error "TypeError: int() argument must not be None"
    | some ks =>
      match pyInt ks with
      | none => .error "ValueError: invalid literal for int()"
      | some k => .ok (dset assignments string k)
  else .ok assignments

/-- The eight `checkSet` calls of `parse` for one `keyMapSelect` child, in
source order. -/
def checkAllSets (assignments : List (String × Int)) (states : List String)
    (keymap : Option String) : Except String (List (String × Int)) := do
  let a ← checkSet assignments states keymap default_max default_min "default"
  let a ← checkSet a states keymap shift_max shift_min "shift"
  let a ← checkSet a states keymap alt_max alt_min "alt"
  let a ← checkSet a states keymap altshift_max altshift_min "altshift"
  let a ← checkSet a states keymap cmd_max cmd_min "cmd"
  let a ← checkSet a states keymap caps_max caps_min "caps"
  let a ← checkSet a states keymap cmdcaps_max cmdcaps_min "cmdcaps"
  checkSet a states keymap shiftcaps_max shiftcaps_min "shiftcaps"

/-- Accumulator threaded through `parse`. -/
structure ParseAcc where
  idx_list : List Int
  key_list : List KeyEntry
  action_list : List ActionEntry
  action_basekeys : List (Option String × PyStr)
  keymap_assignments : List (String × Int)
deriving DecidableEq, Repr

/-- The `keyMapSelect` branch of `parse` (lines 166-189), one iteration per
child: `idx = int(parent.get('mapIndex'))` (raises on a missing or
non-numeric attribute), `states = set(child.get('keys').split())` (raises on
a missing attribute), then the eight `checkSet` calls. -/
def parseKMSelect (mapIndex : Option String) :
    List (Option String) → ParseAcc → Except String ParseAcc
  | [], acc => .ok acc
  | child :: t, acc => do
    let ms ←
      match mapIndex with
      | none => Except.error "TypeError: int() argument must not be None"
      | some s => .ok s
    let idx ←
      match pyInt ms with
      | none => Except.error "ValueError: invalid literal for int()"
      | some v => .ok v
    let keysAttr ←
      match child with
      | none => Except.error "AttributeError: NoneType has no attribute split"
      | some s => .ok s
    let states := pySplit keysAttr
    let a ← checkAllSets acc.keymap_assignments states mapIndex
    parseKMSelect mapIndex t
      { acc with idx_list := acc.idx_list ++ [idx], keymap_assignments := a }

/-- The `key` loop of the `keyMapSet` branch (lines 195-205) followed by
`Key(...).data()`: `key.attrib['code']` raises on a missing attribute; the
`int` conversions of `Key.data` raise on non-numeric values. -/
def parseKeys (keymapset_id : String) (keymap_index : String) :
    List RawKey → List KeyEntry → Except String (List KeyEntry)
  | [], acc => .ok acc
  | key :: t, acc => do
    let key_code ←
      match key.code with
      | none => Except.error "KeyError: code"
      | some c => .ok c
    let keyPair :=
      if key.action.isNone then ("output", key.output) else ("action", key.action)
    let ki ←
      match pyInt keymap_index with
      | none => Except.error "ValueError: invalid literal for int()"
      | some v => .ok v
    let kc ←
      match pyInt key_code with
      | none => Except.error "ValueError: invalid literal for int()"
      | some v => .ok v
    parseKeys keymapset_id keymap_index t
      (acc ++ [{ keymap_set := keymapset_id, key_index := ki, key_code := kc
                 key_type := keyPair.1, result := keyPair.2, ext := [] }])

/-- The keymap loop of the `keyMapSet` branch: `keymap.attrib['index']`
raises on a missing attribute. -/
def parseKeymaps (keymapset_id : String) :
    List KeyMap → List KeyEntry → Except String (List KeyEntry)
  | [], acc => .ok acc
  | km :: t, acc => do
    let idxAttr ←
      match km.index with
      | none => Except.error "KeyError: index"
      | some s => .ok s
    let acc ← parseKeys keymapset_id idxAttr km.keys acc
    parseKeymaps keymapset_id t acc

/-- The `when` loop of the `actions` branch (lines 208-226) followed by
`Action(...).data()`.  `Action.data` applies `str` to the state, turning an
absent attribute (`None`) into the string `"None"`; the raw `state == 'none'`
test of line 225 agrees with testing the stringified state against
`"none"`. -/
def parseActionStates (action_id : Option String) :
    List RawActionState → List ActionEntry → List (Option String × PyStr) →
    List ActionEntry × List (Option String × PyStr)
  | [], accA, accB => (accA, accB)
  | st :: t, accA, accB =>
    let actionPair :=
      if st.next.isNone then ("output", st.output) else ("next", st.next)
    let state := pyShowStr st.state
    let entry : ActionEntry :=
      { action := action_id, state := state, action_type := actionPair.1
        result := actionPair.2, ext := [] }
    let accB :=
      if state = "none" ∧ actionPair.1 = "output" then
        dset accB action_id actionPair.2
      else accB
    parseActionStates action_id t (accA ++ [entry]) accB

/-- The action loop of the `actions` branch. -/
def parseActions : List RawAction → List ActionEntry →
    List (Option String × PyStr) → List ActionEntry × List (Option String × PyStr)
  | [], accA, accB => (accA, accB)
  | a :: t, accA, accB =>
    let p := parseActionStates a.id a.states accA accB
    parseActions t p.1 p.2

/-- Dispatch of `parse` on one tree element. -/
def parseElem (acc : ParseAcc) : TreeElem → Except String ParseAcc
  | .kmSelect sel => parseKMSelect sel.mapIndex sel.children acc
  | .kmSet s => do
    let keymapset_id ←
      match s.id with
      | none => Except.error "KeyError: id"
      | some i => .ok i
    let kl ← parseKeymaps keymapset_id s.keymaps acc.key_list
    .ok { acc with key_list := kl }
  | .actions acts =>
    let p := parseActions acts acc.action_list acc.action_basekeys
    .ok { acc with action_list := p.1, action_basekeys := p.2 }
  | .other => .ok acc

/-- The element loop of `parse`. -/
def parseTree : Tree → ParseAcc → Except String ParseAcc
  | [], acc => .ok acc
  | e :: t, acc => do
    let acc ← parseElem acc e
    parseTree t acc

/-- `KeylayoutParser.parse` (lines 136-230).  After the element loop,
`self.number_of_keymaps = max(idx_list)` raises `ValueError` when no keymap
index was collected. -/
def parse (tree : Tree) : Except String KeylayoutParser := do
  let acc ← parseTree tree
    { idx_list := [], key_list := [], action_list := []
      action_basekeys := [], keymap_assignments := [] }
  match maxInt acc.idx_list with
  | none => .error "ValueError: max() arg is an empty sequence"
  | some m =>
    .ok { initParser with
          key_list := acc.key_list, action_list := acc.action_list
          action_basekeys := acc.action_basekeys
          keymap_assignments := acc.keymap_assignments
          number_of_keymaps := m }

/-- The main loop of `findDeadkeys` (lines 243-253).  The loop unpacks each
entry as a 4-element list, so an entry already extended by `matchActions`
would raise `ValueError`.  `deadkey_id` starts as the integer `0`, which
compares unequal to every id; `Option.none` at the outer level models that
initial integer. -/
def findDeadkeysLoop :
    List ActionEntry → Option (Option String) → List (String × PyStr) →
    List (Option String × PyStr) → List (Option String) →
    Except String (Option (Option String) × List (String × PyStr) ×
      List (Option String × PyStr) × List (Option String))
  | [], dkid, dk, pairs, ea => .ok (dkid, dk, pairs, ea)
  | e :: t, dkid, dk, pairs, ea =>
    if e.ext = [] then
      let dkid :=
        if e.state = "none" ∧ e.action_type = "output" ∧ e.result = some "0020" then
          some e.action
        else dkid
      let dk :=
        if some e.action = dkid ∧ e.result ≠ some "0020" then
          dset dk e.state e.result
        else dk
      let pairsEa :=
        if e.state = "none" ∧ e.action_type = "next" then
          (pairs ++ [(e.action, e.result)], ea ++ [e.action])
        else (pairs, ea)
      findDeadkeysLoop t dkid dk pairsEa.1 pairsEa.2
    else .error "ValueError: too many values to unpack"

/-- The second loop of `findDeadkeys` (lines 255-257): resolve each collected
`[key_id, result]` pair through `deadkeys` when the result is one of its
keys. -/
def resolvePairs (dk : List (String × PyStr)) :
    List (Option String × PyStr) → List (Option String × PyStr)
  | [] => []
  | (kid, r) :: t =>
    let r' :=
      match r with
      | some s => match alookup dk s with
        | some v => v
        | none => r
      | none => r
    (kid, r') :: resolvePairs dk t

/-- `KeylayoutParser.findDeadkeys` (lines 232-264).  The final
`self.action_basekeys.update(dict(key_list))` folds the resolved pairs into
the registry in order. -/
def findDeadkeys (s : KeylayoutParser) : Except String KeylayoutParser := do
  let r ← findDeadkeysLoop s.action_list none s.deadkeys [] s.empty_actions
  let resolved := resolvePairs r.2.1 r.2.2.1
  let abk := resolved.foldl (fun m p => dset m p.1 p.2) s.action_basekeys
  .ok { s with deadkeys := r.2.1, empty_actions := r.2.2.2, action_basekeys := abk }

/-- The loop of `matchActions` (lines 285-291): register every
`none`-state `output`-kind entry in `action_basekeys`, then append the
registered base key to any entry whose id is registered (mutating the
entry). -/
def matchActionsLoop (abk : List (Option String × PyStr)) :
    List ActionEntry → List (Option String × PyStr) × List ActionEntry
  | [] => (abk, [])
  | e :: t =>
    let abk :=
      if e.state = "none" ∧ e.action_type = "output" then
        dset abk e.action e.result
      else abk
    let e :=
      match alookup abk e.action with
      | some v => { e with ext := e.ext ++ [v] }
      | none => e
    let p := matchActionsLoop abk t
    (p.1, e :: p.2)

/-- `KeylayoutParser.matchActions` (lines 266-293). -/
def matchActions (s : KeylayoutParser) : KeylayoutParser :=
  let p := matchActionsLoop s.action_basekeys s.action_list
  { s with action_basekeys := p.1, action_list := p.2 }

/-- The per-entry transformation of `findOutputs` (lines 302-313): mark dead
keys with a trailing `'@'`, then rewrite action references through
`action_basekeys`. -/
def transformKey (ea : List (Option String)) (abk : List (Option String × PyStr))
    (e : KeyEntry) : KeyEntry :=
  let e := if e.result ∈ ea then { e with ext := e.ext ++ ["@"] } else e
  match alookup abk e.result with
  | some v => { e with key_type := "output", result := v }
  | none => e

/-- `KeylayoutParser.findOutputs` (lines 295-315), in the value-level form
justified in the file header: every `output_list` element is an alias of a
`key_list` entry, each entry is transformed once, and every (transformed)
`key_list` entry is appended to `output_list`. -/
def findOutputs (s : KeylayoutParser) : KeylayoutParser :=
  let kl := s.key_list.map (transformKey s.empty_actions s.action_basekeys)
  { s with
    key_list := kl
    output_list :=
      s.output_list.map (transformKey s.empty_actions s.action_basekeys) ++ kl }

/-- Append a `(basekey, result)` pair to a dead key's composition list
(lines 332-335). -/
def dkAppend (kd : List (PyStr × List (PyStr × PyStr))) (g : PyStr)
    (p : PyStr × PyStr) : List (PyStr × List (PyStr × PyStr)) :=
  match alookup kd g with
  | some l => dset kd g (l ++ [p])
  | none => dset kd g [p]

/-- Lines 325-326 of `makeDeadKeyTable`: append the state's dead key to an
entry whose state is registered in `deadkeys`. -/
def extendDead (dk : List (String × PyStr)) (e : ActionEntry) : ActionEntry :=
  match alookup dk e.state with
  | some v => { e with ext := e.ext ++ [v] }
  | none => e

/-- The loop of `makeDeadKeyTable` (lines 324-335): extend each entry via
`extendDead`, then record `(i[4], i[3])` under `i[5]` for every entry that
reached length 6 — i.e. whose tail holds exactly two appended fields. -/
def makeDeadKeyTableLoop (dk : List (String × PyStr)) :
    List ActionEntry → List (PyStr × List (PyStr × PyStr)) →
    List (PyStr × List (PyStr × PyStr)) × List ActionEntry
  | [], kd => (kd, [])
  | e :: t, kd =>
    let e := extendDead dk e
    let kd :=
      match e.ext with
      | [a, b] => dkAppend kd b (a, e.result)
      | _ => kd
    let p := makeDeadKeyTableLoop dk t kd
    (p.1, e :: p.2)

/-- `KeylayoutParser.makeDeadKeyTable` (lines 317-337). -/
def makeDeadKeyTable (s : KeylayoutParser) : KeylayoutParser :=
  let p := makeDeadKeyTableLoop s.deadkeys s.action_list s.key_dict
  { s with key_dict := p.1, action_list := p.2 }

/-- The row `dict(li)` of lines 352-355 for `number_of_keymaps = n`:
`{0: '-1', ..., n: '-1'}`. -/
def initRow (n : Int) : List (Int × PyStr) :=
  (rangeInt (n + 1)).map (fun j => (j, some "-1"))

/-- The first loop of `makeOutputDict` (lines 347-355) with Python `for`
semantics over a list being mutated: the cursor `pos` advances by one each
iteration while `remove` shifts later elements left, so the element after a
removed one is skipped.  The row assignment sits inside the inner `range`
loop, so no row is assigned when the range is empty.  The `fuel` argument
only drives structural recursion; `makeOutputDict` passes `l.length + 1`,
which exceeds the number of iterations: the cursor advances by one per
iteration, the list never grows, and the loop stops once the cursor passes
the end. -/
def filterLoop (first : String) (n : Int) :
    Nat → List KeyEntry → List (Int × List (Int × PyStr)) → Nat →
    List KeyEntry × List (Int × List (Int × PyStr))
  | 0, l, dict, _ => (l, dict)
  | fuel + 1, l, dict, pos =>
    if h : pos < l.length then
      filterLoop first n fuel
        (if (l.get ⟨pos, h⟩).keymap_set ≠ first
          then removeFirst l (l.get ⟨pos, h⟩) else l)
        (if initRow n = [] then dict
          else dset dict (l.get ⟨pos, h⟩).key_code (initRow n))
        (pos + 1)
    else (l, dict)

/-- The output written by the second loop of `makeOutputDict` for one entry
(lines 362-367): a plain 5-element entry yields `i[4]`; an extended entry
yields `i[4] + '@'`, raising `TypeError` when `i[4]` is `None`. -/
def writeValue (e : KeyEntry) : Except String PyStr :=
  match e.ext with
  | [] => .ok e.result
  | _ =>
    match e.result with
    | none => .error "TypeError: unsupported operand types"
    | some sres => .ok (some (sres ++ "@"))

/-- The second loop of `makeOutputDict` (lines 357-369):
`self.output_dict[key_id][keymap_id] = output` reads the outer dict (raising
`KeyError` for an uninitialised key code) and updates the inner row. -/
def writeLoop (dict : List (Int × List (Int × PyStr))) :
    List KeyEntry → Except String (List (Int × List (Int × PyStr)))
  | [] => .ok dict
  | e :: t => do
    let output ← writeValue e
    match alookup dict e.key_code with
    | none => Except.error "KeyError: key code not initialised"
    | some inner => writeLoop (dset dict e.key_code (dset inner e.key_index output)) t

/-- `KeylayoutParser.makeOutputDict` (lines 339-371).
`self.output_list[0][0]` raises `IndexError` on an empty output list. -/
def makeOutputDict (s : KeylayoutParser) : Except String KeylayoutParser :=
  match s.output_list with
  | [] => .error "IndexError: list index out of range"
  | e0 :: _ =>
    let first := e0.keymap_set
    let p := filterLoop first s.number_of_keymaps (s.output_list.length + 1)
      s.output_list s.output_dict 0
    match writeLoop p.2 p.1 with
    | .error m => .error m
    | .ok dict => .ok { s with output_list := p.1, output_dict := dict }

/-- `KeylayoutParser.getOutput` (lines 373-383): the `try/except KeyError`
yields `'-1'` when the state has no assignment or the row lacks the index. -/
def getOutput (s : KeylayoutParser) (key_output_dict : List (Int × PyStr))
    (state : String) : PyStr :=
  match alookup s.keymap_assignments state with
  | none => some "-1"
  | some idx =>
    match alookup key_output_dict idx with
    | none => some "-1"
    | some v => v

/-- The resolution stages of `process_input_keylayout` after `parse`
(lines 648-652). -/
def resolveStages (s : KeylayoutParser) : Except String KeylayoutParser := do
  let s ← findDeadkeys s
  let s := matchActions s
  let s := findOutputs s
  let s := makeDeadKeyTable s
  makeOutputDict s

/-- `process_input_keylayout` restricted to the resolution engine: `parse`
followed by the builder stages. -/
def process_tree (tree : Tree) : Except String KeylayoutParser := do
  let s ← parse tree
  resolveStages s

/-! ### The key table emitter

`writeKeyTable` additionally depends on the data tables `win_keycodes` and
`win_to_mac_keycodes` (imported from `klc_data`) and on the helper
`char_description`.  The embedding takes the two tables as parameters, and
`char_description` is embedded with its control flow (lines 546-557): its
`try/except ValueError` makes it total on every string argument, so the
composite `unicodedata.name(char_from_hex(...))`-with-`'PUA'`-fallback is a
parameter `uniName : String → String`; on a `None` argument, however, the
`in ['-1', '']` test is false and `hex_string.rstrip('@')` raises
`AttributeError` before anything is emitted.  The diagnostic `print` calls
do not affect the parser state and are not modelled. -/

/-- Python `hex_string.rstrip('@')` on a string. -/
def rstripAt (s : String) : String :=
  String.mk ((s.data.reverse.dropWhile (fun c => c = '@')).reverse)

/-- `char_description` (lines 546-557): `'<none>'` for `'-1'` or the empty
string, otherwise the (parameterised) `unicodedata` name of the
`'@'`-stripped codepoint; on `None` the `rstrip` attribute access raises
`AttributeError`. -/
def char_description (uniName : String → String) : PyStr → Except String String
  | none => .error "AttributeError: NoneType object has no attribute rstrip"
  | some s =>
    if s = "-1" ∨ s = "" then .ok "<none>"
    else .ok (uniName (rstripAt s))

/-- Python `'\t'.join(keytable)`: raises `TypeError` when an element is
`None`. -/
def joinTab (l : List PyStr) : Except String String :=
  match l with
  | [] => .ok ""
  | none :: _ => .error "TypeError: sequence item is None"
  | some s :: t =>
    match joinTab t with
    | .error m => .error m
    | .ok rest => .ok (if t = [] then s else s ++ "\t" ++ rest)

/-- The 11-column `keytable` built for one Windows key code
(lines 418-454): scan code, virtual key, spacer, caps flag, the six state
outputs, and the description comment.  The caps flag (column 3) implements
the three-way classification of lines 431-441.  The description column
(lines 449-454) calls `char_description` on the default, shift, cmd, alt
and altshift outputs in that order, so a `None` among them raises
`AttributeError` before any row is assembled. -/
def keyRowFields (s : KeylayoutParser) (uniName : String → String)
    (outputs : List (Int × PyStr)) (win_kc_hex win_kc_name : String) :
    Except String (List PyStr) := do
  let default_output := getOutput s outputs "default"
  let shift_output := getOutput s outputs "shift"
  let alt_output := getOutput s outputs "alt"
  let altshift_output := getOutput s outputs "altshift"
  let caps_output := getOutput s outputs "caps"
  let cmd_output := getOutput s outputs "cmd"
  let cmdcaps_output := getOutput s outputs "cmdcaps"
  let flag :=
    if caps_output = default_output then "0"
    else if caps_output = shift_output then "1"
    else "SGCap"
  let d0 ← char_description uniName default_output
  let d1 ← char_description uniName shift_output
  let d2 ← char_description uniName cmd_output
  let d3 ← char_description uniName alt_output
  let d4 ← char_description uniName altshift_output
  .ok [ some win_kc_hex, some win_kc_name, some "", some flag
      , default_output, shift_output, cmd_output, cmdcaps_output
      , alt_output, altshift_output
      , some ("// " ++ d0 ++ ", " ++ d1 ++ ", " ++ d2 ++ ", " ++ d3
          ++ ", " ++ d4) ]

/-- The extra `SGCap` row of lines 459-463, carrying the caps and
shift-caps outputs.  The format tuple evaluates left to right, so
`char_description` raises `AttributeError` on a `None` caps or shift-caps
output before the row is formatted (`'%s'` would render `None` as
`"None"`, but only strings reach the formatting step). -/
def sgcapRow (uniName : String → String) (caps_output shiftcaps_output : PyStr) :
    Except String String := do
  let c0 ← char_description uniName caps_output
  let c1 ← char_description uniName shiftcaps_output
  .ok ("-1\t-1\t\t0\t" ++ pyShowStr caps_output ++ "\t"
    ++ pyShowStr shiftcaps_output ++ "\t\t\t\t\t// " ++ c0 ++ ", " ++ c1)

/-- The rows emitted for one Windows key code whose outputs were found
(lines 418-463): the keytable columns (whose description cell may raise),
the joined main row (`'\t'.join` raises `TypeError` on a remaining `None`,
i.e. a `None` cmdcaps output), plus the extra row exactly when the caps
flag is `SGCap`. -/
def keyRows (s : KeylayoutParser) (uniName : String → String)
    (outputs : List (Int × PyStr)) (win_kc_hex win_kc_name : String) :
    Except String (List String) := do
  let fields ← keyRowFields s uniName outputs win_kc_hex win_kc_name
  let main ← joinTab fields
  if fields.get? 3 = some (some "SGCap") then do
    let extra ← sgcapRow uniName (getOutput s outputs "caps")
      (getOutput s outputs "shiftcaps")
    .ok [main, extra]
  else .ok [main]

/-- The loop of `writeKeyTable` (lines 387-463): hex-decode each Windows
key code, skip codes with no Mac equivalent or no output entry (printing a
diagnostic, not modelled), and emit the rows of `keyRows` otherwise. -/
def writeKeyTableLoop (s : KeylayoutParser) (uniName : String → String)
    (win_to_mac_keycodes : List (Int × Int)) :
    List (String × String) → Except String (List String)
  | [] => .ok []
  | (hx, nm) :: t => do
    let kc ←
      match pyIntHex hx with
      | none => Except.error "ValueError: invalid literal for int() with base 16"
      | some v => .ok v
    match alookup win_to_mac_keycodes kc with
    | none => writeKeyTableLoop s uniName win_to_mac_keycodes t
    | some mac =>
      match alookup s.output_dict mac with
      | none => writeKeyTableLoop s uniName win_to_mac_keycodes t
      | some outputs => do
        let rows ← keyRows s uniName outputs hx nm
        let rest ← writeKeyTableLoop s uniName win_to_mac_keycodes t
        .ok (rows ++ rest)

/-- Ordering used by `sorted(win_keycodes.items())`: Python tuple order on
pairs of strings. -/
def pairLe (a b : String × String) : Bool :=
  a.1 < b.1 || (a.1 = b.1 && (a.2 < b.2 || a.2 = b.2))

/-- `KeylayoutParser.writeKeyTable` (lines 385-464), parameterised by the
`klc_data` tables and the `unicodedata` naming function. -/
def writeKeyTable (s : KeylayoutParser) (uniName : String → String)
    (win_keycodes : List (String × String))
    (win_to_mac_keycodes : List (Int × Int)) : Except String (List String) :=
  writeKeyTableLoop s uniName win_to_mac_keycodes
    (win_keycodes.mergeSort (fun a b => pairLe a b))

/-! ### Derived notions used by the statements below -/

/-- Two-level lookup in the output table: `output_dict[c][i]` as an
`Option`. -/
def lookup2 (d : List (Int × List (Int × PyStr))) (c i : Int) : Option PyStr :=
  match alookup d c with
  | none => none
  | some row => alookup row i

/-- Python `==` on two output tables: same key codes, and the same value at
every key code and keymap index. -/
def outputDictEq (a b : List (Int × List (Int × PyStr))) : Prop :=
  (∀ c, (alookup a c).isSome = (alookup b c).isSome) ∧
    (∀ c i, lookup2 a c i = lookup2 b c i)

/-- The dictionary produced by the first loop of `makeOutputDict` when no
entry is removed: each visited entry (re)assigns the fresh `'-1'` row to its
key code. -/
def initFold (n : Int) : List KeyEntry → List (Int × List (Int × PyStr)) →
    List (Int × List (Int × PyStr))
  | [], dict => dict
  | e :: t, dict =>
    initFold n t (if initRow n = [] then dict else dset dict e.key_code (initRow n))

/-- Left-biased choice on options. -/
def firstSome {α : Type} : Option α → Option α → Option α
  | some v, _ => some v
  | none, b => b

/-- The value written last for `(key code, keymap index)` by the second loop
of `makeOutputDict` over a given entry list, if some entry writes there and
its output computation succeeds. -/
def lastWriteVal : List KeyEntry → Int → Int → Option PyStr
  | [], _, _ => none
  | e :: t, c, i =>
    match lastWriteVal t c i with
    | some v => some v
    | none =>
      if e.key_code = c ∧ e.key_index = i then
        match writeValue e with
        | .ok v => some v
        | .error _ => none
      else none

/-- The composition pairs `makeDeadKeyTable` collects for the dead-key glyph
`g`, in encounter order over the action list: exactly the entries that after
`extendDead` carry two appended fields (a resolved base character and the
state's dead-key glyph) whose second field is `g`. -/
def eligiblePairs (dk : List (String × PyStr)) (l : List ActionEntry) (g : PyStr) :
    List (PyStr × PyStr) :=
  l.filterMap (fun e =>
    match (extendDead dk e).ext with
    | [a, b] => if b = g then some (a, (extendDead dk e).result) else none
    | _ => none)

/-- Shape of a composition-table lookup after `makeDeadKeyTable`: the
pre-existing list extended by the eligible pairs, or absent when there is
neither. -/
def keyDictExpect (old : Option (List (PyStr × PyStr)))
    (el : List (PyStr × PyStr)) : Option (List (PyStr × PyStr)) :=
  match old with
  | some init => some (init ++ el)
  | none => if el = [] then none else some el

/-- The Output Table Builder of the spec: `findOutputs` followed by
`makeOutputDict`. -/
def outputTableBuilder (s : KeylayoutParser) : Except String KeylayoutParser :=
  makeOutputDict (findOutputs s)

/-- The four builder stages named by the round-trip claim: `findDeadkeys`,
`matchActions`, `findOutputs`, `makeOutputDict`. -/
def fourStages (s : KeylayoutParser) : Except String KeylayoutParser := do
  let s ← findDeadkeys s
  makeOutputDict (findOutputs (matchActions s))

/-! ### Concrete inputs used by counterexamples and witnesses -/

/-- Parser state after extraction for a layout with two keymap sets: one key
in set `"1"`, and two consecutive keys in set `"2"`. -/
def c1state : KeylayoutParser :=
  { initParser with
    key_list :=
      [ ⟨"1", 0, 5, "output", some "0061", []⟩
      , ⟨"2", 0, 5, "output", some "0071", []⟩
      , ⟨"2", 1, 5, "output", some "0063", []⟩ ]
    number_of_keymaps := 1 }

/-- Parser state after extraction for a layout in which action id `a1` has
both a `none`-state output entry (`0041`) and a `none`-state next entry into
the dead-key state `s1` (whose glyph is `02c6`). -/
def c2state : KeylayoutParser :=
  { initParser with
    action_list :=
      [ ⟨some "d", "none", "output", some "0020", []⟩
      , ⟨some "d", "s1", "output", some "02c6", []⟩
      , ⟨some "a1", "none", "output", some "0041", []⟩
      , ⟨some "a1", "none", "next", some "s1", []⟩ ]
    action_basekeys := [(some "d", some "0020"), (some "a1", some "0041")] }

/-- Parser state after extraction for a layout in which the dead-key action
`d` lists its `s1` entry before its `none`-state space entry. -/
def c6state : KeylayoutParser :=
  { initParser with
    action_list :=
      [ ⟨some "d", "s1", "output", some "02c6", []⟩
      , ⟨some "d", "none", "output", some "0020", []⟩ ] }

/-- Parser state after extraction for a dead-key action `d` with two
states: the `none`-state space entry first, then the `s1` and `s2` entries,
so the `s2` capture is separated from the trigger by the `s1` entry. -/
def c6wstate : KeylayoutParser :=
  { initParser with
    action_list :=
      [ ⟨some "d", "none", "output", some "0020", []⟩
      , ⟨some "d", "s1", "output", some "02c6", []⟩
      , ⟨some "d", "s2", "output", some "02dc", []⟩ ] }

/-- Parser state in which the resolved output `0041` of action `1` is itself
registered as an action id in `action_basekeys`. -/
def c8state : KeylayoutParser :=
  { initParser with
    key_list := [⟨"k1", 0, 5, "action", some "1", []⟩]
    action_basekeys := [(some "1", some "0041"), (some "0041", some "0042")]
    number_of_keymaps := 0 }

/-- Parser state with one key bound directly to the literal codepoint
`0061`, while an action whose id is the string `"0061"` outputs `0062`. -/
def c9state : KeylayoutParser :=
  { initParser with
    key_list := [⟨"k1", 0, 5, "output", some "0061", []⟩]
    action_list := [⟨some "0061", "none", "output", some "0062", []⟩]
    action_basekeys := [(some "0061", some "0062")]
    number_of_keymaps := 0 }

/-- A small well-formed parsed tree: two modifier slots, one keymap set with
two keymaps, a dead-key action chain (state `s1`, glyph `02c6`) and a base
action. -/
def c3tree : Tree :=
  [ .kmSelect ⟨some "0", [some ""]⟩
  , .kmSelect ⟨some "1", [some "anyShift caps?"]⟩
  , .kmSet ⟨some "16",
      [ ⟨some "0", [⟨some "0", some "3", none⟩, ⟨some "11", none, some "0062"⟩]⟩
      , ⟨some "1", [⟨some "0", none, some "0041"⟩]⟩ ]⟩
  , .actions
      [ ⟨some "3", [⟨some "none", some "s1", none⟩, ⟨some "s1", none, some "00e2"⟩]⟩
      , ⟨some "5", [⟨some "none", none, some "0020"⟩, ⟨some "s1", none, some "02c6"⟩]⟩
      , ⟨some "6", [⟨some "none", none, some "0061"⟩, ⟨some "s1", none, some "00e2"⟩]⟩ ]
  ]

/-- The parser state extracted from `c3tree`. -/
def c3parsed : KeylayoutParser :=
  match parse c3tree with
  | .ok s => s
  | .error _ => initParser

/-- Parser state with one surviving key entry and three declared keymap
indices. -/
def c10wstate : KeylayoutParser :=
  { initParser with
    output_list := [⟨"1", 0, 5, "output", some "0061", []⟩]
    number_of_keymaps := 2 }

/-! ## Basic lemmas about the dictionary model -/

theorem alookup_dset {α β : Type} [DecidableEq α] (d : List (α × β)) (k : α)
    (v : β) (a : α) :
    alookup (dset d k v) a = if k = a then some v else alookup d a := by
  induction d with
  | nil => simp [dset, alookup]
  | cons p t ih =>
    obtain ⟨k0, v0⟩ := p
    by_cases h0 : k0 = k
    · subst h0
      by_cases h1 : k0 = a <;> simp [dset, alookup, h1]
    · simp only [dset, if_neg h0]
      by_cases h1 : k0 = a
      · subst h1
        have h2 : ¬k = k0 := fun h2 => h0 h2.symm
        simp [alookup, h2]
      · simp [alookup, h1, ih]

theorem alookup_dset_isSome {α β : Type} [DecidableEq α] (d : List (α × β))
    (k : α) (v : β) (a : α) :
    (alookup (dset d k v) a).isSome =
      (if k = a then true else (alookup d a).isSome) := by
  rw [alookup_dset]
  by_cases h : k = a <;> simp [h]

theorem dset_snd_pred {α β : Type} [DecidableEq α] (P : β → Prop)
    (d : List (α × β)) (k : α) (v : β) (hd : ∀ p ∈ d, P p.2) (hv : P v) :
    ∀ p ∈ dset d k v, P p.2 := by
  induction d with
  | nil => simpa [dset] using hv
  | cons p t ih =>
    obtain ⟨k0, v0⟩ := p
    intro q hq
    by_cases h0 : k0 = k
    · simp [dset, h0] at hq
      rcases hq with h | h
      · subst h; exact hv
      · exact hd q (by simp [h])
    · simp [dset, h0] at hq
      rcases hq with h | h
      · subst h; exact hd (k0, v0) (by simp)
      · exact ih (fun p hp => hd p (by simp [hp])) q h

theorem alookup_foldl_dset_mem {α β : Type} [DecidableEq α]
    (pairs : List (α × β)) (d : List (α × β)) (a : α)
    (h : (alookup d a).isSome = true ∨ a ∈ pairs.map Prod.fst) :
    (alookup (pairs.foldl (fun m p => dset m p.1 p.2) d) a).isSome = true := by
  induction pairs generalizing d with
  | nil => simpa using h
  | cons p t ih =>
    simp only [List.foldl_cons]
    refine ih (dset d p.1 p.2) ?_
    rw [alookup_dset_isSome]
    by_cases he : p.1 = a
    · left; simp [he]
    · simp only [he, if_false]
      rcases h with h | h
      · exact Or.inl h
      · simp only [List.map_cons, List.mem_cons] at h
        rcases h with h | h
        · exact absurd h.symm he
        · exact Or.inr h

theorem foldl_dset_snd_pred {α β : Type} [DecidableEq α] (P : β → Prop)
    (pairs : List (α × β)) (d : List (α × β))
    (hd : ∀ p ∈ d, P p.2) (hp : ∀ p ∈ pairs, P p.2) :
    ∀ p ∈ pairs.foldl (fun m p => dset m p.1 p.2) d, P p.2 := by
  induction pairs generalizing d with
  | nil => simpa using hd
  | cons p t ih =>
    simp only [List.foldl_cons]
    exact ih (dset d p.1 p.2)
      (dset_snd_pred P d p.1 p.2 hd (hp p (by simp)))
      (fun q hq => hp q (by simp [hq]))

theorem alookup_mem {α β : Type} [DecidableEq α] (d : List (α × β)) (a : α)
    (v : β) (h : alookup d a = some v) : (a, v) ∈ d := by
  induction d with
  | nil => simp [alookup] at h
  | cons p t ih =>
    obtain ⟨k0, v0⟩ := p
    by_cases h0 : k0 = a
    · subst h0
      simp [alookup] at h
      simp [h]
    · simp [alookup, h0] at h
      exact List.mem_cons_of_mem _ (ih h)

/-! ## C1: restriction of the output table to the first keymap set

The claim states that `makeOutputDict` discards every entry whose keymap set
differs from the first extracted key's keymap set before indexing the table.
The removal loop of lines 347-349 deletes from `self.output_list` while
iterating over it, so the element following a removed one is skipped: with
two consecutive foreign-set entries, the second one survives and writes its
value into the output table.  The source's own docstring (lines 341-343)
states that the script works on the first keymap set only and that "the
filtering occurs" here, so the claim describes the intent and the code has a
remove-while-iterating slip. -/

/-- C1 (code bug): on `c1state`, whose key list holds one key of keymap set
`"1"` followed by two consecutive keys of keymap set `"2"`, the Output Table
Builder keeps the second set-`"2"` entry in the filtered output list and its
value `0063` reaches the final table at key code 5, keymap index 1 —
contradicting the claim that all foreign-set definitions are discarded. -/
theorem c1_first_keymapset_filter_gap :
    (outputTableBuilder c1state).map
        (fun s => (s.output_list, lookup2 s.output_dict 5 1)) =
      .ok ([⟨"1", 0, 5, "output", some "0061", []⟩,
            ⟨"2", 1, 5, "output", some "0063", []⟩],
           some (some "0063")) := by
  rfl

/-! ## C3: the engine can raise -/

/-- C3 (counterexample): on the empty parsed tree, `parse` raises
(`max(idx_list)` on an empty index list), refuting the claim that the
resolution engine never raises on any parsed source tree. -/
theorem c3_counterexample :
    parse ([] : Tree) = .error "ValueError: max() arg is an empty sequence" := by
  rfl

/-- C2 (counterexample): on `c2state`, action id `a1` has both a
`none`-state output entry (result `0041`) and a `none`-state next entry into
dead-key state `s1` (glyph `02c6`).  After `findDeadkeys` the registry holds
the dead-key value `02c6` for `a1`, but `matchActions` — which runs next in
the resolver — re-registers the `none`-state output result, so the final
registry value is `0041`, not the dead-key interpretation. -/
theorem c2_counterexample :
    (findDeadkeys c2state).map (fun s =>
        (alookup s.deadkeys "s1", alookup s.action_basekeys (some "a1"),
         alookup (matchActions s).action_basekeys (some "a1"))) =
      .ok (some (some "02c6"), some (some "02c6"), some (some "0041")) := by
  rfl

/-- C6 (counterexample): in `c6state` the dead-key action `d` satisfies the
claim's premise (its `none`-state output is `0020` and its `s1` entry
produces the non-space result `02c6`), yet after `findDeadkeys` the registry
is empty: the `s1` entry precedes the `none`/`0020` entry in the action
list, and the loop only registers states once the action has become the
current dead-key candidate. -/
theorem c6_counterexample :
    (findDeadkeys c6state).map (fun s => s.deadkeys) = .ok [] := by
  rfl

/-- C8 (counterexample): on `c8state` the first Output Table Builder run
leaves `action_basekeys`, `empty_actions` and `keymap_assignments`
unchanged, yet a second run yields a different table: the first run rewrote
the key's output to `0041`, which is itself a registered action id, so the
second run rewrites it again to `0042`. -/
theorem c8_counterexample :
    (outputTableBuilder c8state).map (fun s =>
        (s.output_dict, s.action_basekeys, s.empty_actions, s.keymap_assignments)) =
      .ok ([(5, [(0, some "0041")])],
           [(some "1", some "0041"), (some "0041", some "0042")], [], []) ∧
    ((outputTableBuilder c8state).bind outputTableBuilder).map
        (fun s => s.output_dict) =
      .ok [(5, [(0, some "0042")])] := by
  exact ⟨rfl, rfl⟩

/-- C9 (counterexample): `c9state` binds one key directly to the literal
codepoint `0061` (kind `output`, no action reference), but an action id
equal to the string `"0061"` exists, so `findOutputs` rewrites the literal
output through `action_basekeys` and the final table holds `0062` instead of
the original codepoint. -/
theorem c9_counterexample :
    c9state.key_list = [⟨"k1", 0, 5, "output", some "0061", []⟩] ∧
    (fourStages c9state).map (fun s => lookup2 s.output_dict 5 0) =
      .ok (some (some "0062")) := by
  exact ⟨rfl, rfl⟩

/-! ## C5: unmatched modifier-state slots -/

theorem checkSet_not_qualified (a : List (String × Int)) (states : List String)
    (keymap : Option String) (mx mn : List String) (str : String)
    (h : ¬(issubset states mx = true ∧ issubset mn states = true)) :
    checkSet a states keymap mx mn str = .ok a := by
  unfold checkSet
  rw [if_neg]
  simp only [Bool.and_eq_true]
  exact h

/-- C5: a declared modifier-state slot whose flag set is, for every one of
the eight canonical labels, not a superset of the label's minimal set or not
a subset of its maximal set contributes nothing to `keymap_assignments`
(the eight `checkSet` calls return the assignments unchanged, whatever they
were and whatever the slot's `mapIndex`); and `getOutput` on any label with
no assignment returns the sentinel `'-1'` instead of raising. -/
theorem c5_unmatched_slot_ignored (states : List String) (keymap : Option String)
    (h : ∀ t ∈ canonicalTriples,
      ¬(issubset states t.1 = true ∧ issubset t.2.1 states = true)) :
    (∀ a, checkAllSets a states keymap = .ok a) ∧
    (∀ (s : KeylayoutParser) (d : List (Int × PyStr)) (st : String),
      alookup s.keymap_assignments st = none → getOutput s d st = some "-1") := by
  constructor
  · intro a
    have h1 := checkSet_not_qualified a states keymap default_max default_min
      "default" (h (default_max, default_min, "default") (by simp [canonicalTriples]))
    have h2 := checkSet_not_qualified a states keymap shift_max shift_min
      "shift" (h (shift_max, shift_min, "shift") (by simp [canonicalTriples]))
    have h3 := checkSet_not_qualified a states keymap alt_max alt_min
      "alt" (h (alt_max, alt_min, "alt") (by simp [canonicalTriples]))
    have h4 := checkSet_not_qualified a states keymap altshift_max altshift_min
      "altshift" (h (altshift_max, altshift_min, "altshift") (by simp [canonicalTriples]))
    have h5 := checkSet_not_qualified a states keymap cmd_max cmd_min
      "cmd" (h (cmd_max, cmd_min, "cmd") (by simp [canonicalTriples]))
    have h6 := checkSet_not_qualified a states keymap caps_max caps_min
      "caps" (h (caps_max, caps_min, "caps") (by simp [canonicalTriples]))
    have h7 := checkSet_not_qualified a states keymap cmdcaps_max cmdcaps_min
      "cmdcaps" (h (cmdcaps_max, cmdcaps_min, "cmdcaps") (by simp [canonicalTriples]))
    have h8 := checkSet_not_qualified a states keymap shiftcaps_max shiftcaps_min
      "shiftcaps" (h (shiftcaps_max, shiftcaps_min, "shiftcaps") (by simp [canonicalTriples]))
    simp [checkAllSets, bind, Except.bind, h1, h2, h3, h4, h5, h6, h7, h8]
  · intro s d st hst
    simp [getOutput, hst]

/-- C5 (witness): the flag set `{rightShift}` matches none of the eight
canonical labels; the eight `checkSet` calls leave an empty assignment table
empty, and a lookup for the unassigned `shift` label reports `'-1'`. -/
theorem c5_witness :
    checkAllSets [] ["rightShift"] (some "3") = .ok [] ∧
    getOutput initParser [] "shift" = some "-1" := by
  have h := c5_unmatched_slot_ignored ["rightShift"] (some "3") (by decide)
  exact ⟨h.1 [], h.2 initParser [] "shift" rfl⟩

/-! ## C2: interplay of `findDeadkeys` and `matchActions` on shared ids -/

theorem matchActionsLoop_append (abk : List (Option String × PyStr))
    (l₁ l₂ : List ActionEntry) :
    (matchActionsLoop abk (l₁ ++ l₂)).1 =
      (matchActionsLoop (matchActionsLoop abk l₁).1 l₂).1 := by
  induction l₁ generalizing abk with
  | nil => simp [matchActionsLoop]
  | cons e t ih => simp [matchActionsLoop, ih]

theorem matchActionsLoop_no_write (abk : List (Option String × PyStr))
    (l : List ActionEntry) (A : Option String)
    (h : ∀ e ∈ l, ¬(e.action = A ∧ e.state = "none" ∧ e.action_type = "output")) :
    alookup (matchActionsLoop abk l).1 A = alookup abk A := by
  induction l generalizing abk with
  | nil => simp [matchActionsLoop]
  | cons e t ih =>
    simp only [matchActionsLoop]
    by_cases hw : e.state = "none" ∧ e.action_type = "output"
    · have hA : ¬e.action = A := fun hA =>
        h e (by simp) ⟨hA, hw⟩
      rw [if_pos hw]
      rw [ih _ (fun e' he' => h e' (by simp [he']))]
      rw [alookup_dset, if_neg hA]
    · rw [if_neg hw]
      exact ih _ (fun e' he' => h e' (by simp [he']))

/-- C2 (amended): for an action id with both a `none`-state output entry and
a `none`-state next entry, the dead-key value installed by `findDeadkeys` is
overwritten again by `matchActions`, which re-registers every `none`-state
output entry: after `findDeadkeys` followed by `matchActions`, the
BaseKeyRegistry maps the id to the result of its last `none`-state output
entry in the action list — the `none`-state output interpretation, not the
dead-key interpretation. -/
theorem c2_matchActions_none_output_wins (s : KeylayoutParser)
    (A : Option String) (r : PyStr) (x : List PyStr) (l₁ l₂ : List ActionEntry)
    (hl : s.action_list = l₁ ++ ⟨A, "none", "output", r, x⟩ :: l₂)
    (h₂ : ∀ e ∈ l₂, ¬(e.action = A ∧ e.state = "none" ∧ e.action_type = "output")) :
    alookup (matchActions s).action_basekeys A = some r := by
  show alookup (matchActionsLoop s.action_basekeys s.action_list).1 A = some r
  rw [hl, matchActionsLoop_append]
  have hmid : (matchActionsLoop (matchActionsLoop s.action_basekeys l₁).1
      (⟨A, "none", "output", r, x⟩ :: l₂)).1 =
      (matchActionsLoop (dset (matchActionsLoop s.action_basekeys l₁).1 A r) l₂).1 := by
    simp [matchActionsLoop]
  rw [hmid, matchActionsLoop_no_write _ _ _ h₂, alookup_dset, if_pos rfl]

/-- C2 (witness): in `c2state`, action id `a1` has a `none`-state output
entry with result `0041` followed only by a `none`-state next entry, so
after the resolver the registry holds `0041` for `a1`. -/
theorem c2_witness :
    alookup (matchActions c2state).action_basekeys (some "a1") =
      some (some "0041") := by
  exact c2_matchActions_none_output_wins c2state (some "a1") (some "0041") []
    [⟨some "d", "none", "output", some "0020", []⟩,
     ⟨some "d", "s1", "output", some "02c6", []⟩]
    [⟨some "a1", "none", "next", some "s1", []⟩] rfl (by decide)

/-! ## C6: which states `findDeadkeys` registers -/

theorem findDeadkeysLoop_cons (e : ActionEntry) (t : List ActionEntry)
    (dkid : Option (Option String)) (dk : List (String × PyStr))
    (pairs : List (Option String × PyStr)) (ea : List (Option String))
    (he : e.ext = []) :
    findDeadkeysLoop (e :: t) dkid dk pairs ea =
      findDeadkeysLoop t
        (if e.state = "none" ∧ e.action_type = "output" ∧ e.result = some "0020"
          then some e.action else dkid)
        (if some e.action = (if e.state = "none" ∧ e.action_type = "output" ∧
              e.result = some "0020" then some e.action else dkid) ∧
            e.result ≠ some "0020"
          then dset dk e.state e.result else dk)
        (if e.state = "none" ∧ e.action_type = "next"
          then pairs ++ [(e.action, e.result)] else pairs)
        (if e.state = "none" ∧ e.action_type = "next"
          then ea ++ [e.action] else ea) := by
  by_cases h3 : e.state = "none" ∧ e.action_type = "next" <;>
    simp [findDeadkeysLoop, he, h3]

theorem findDeadkeysLoop_cons_error (e : ActionEntry) (t : List ActionEntry)
    (dkid : Option (Option String)) (dk : List (String × PyStr))
    (pairs : List (Option String × PyStr)) (ea : List (Option String))
    (he : e.ext ≠ []) :
    findDeadkeysLoop (e :: t) dkid dk pairs ea =
      .error "ValueError: too many values to unpack" := by
  simp [findDeadkeysLoop, he]

theorem findDeadkeysLoop_ok (l : List ActionEntry)
    (hext : ∀ e ∈ l, e.ext = []) (dkid : Option (Option String))
    (dk : List (String × PyStr)) (pairs : List (Option String × PyStr))
    (ea : List (Option String)) :
    ∃ r, findDeadkeysLoop l dkid dk pairs ea = .ok r := by
  induction l generalizing dkid dk pairs ea with
  | nil => exact ⟨_, rfl⟩
  | cons e t ih =>
    rw [findDeadkeysLoop_cons e t dkid dk pairs ea (hext e (by simp))]
    exact ih (fun e' he' => hext e' (by simp [he'])) _ _ _ _

theorem findDeadkeysLoop_append (l₁ l₂ : List ActionEntry)
    (dkid : Option (Option String)) (dk : List (String × PyStr))
    (pairs : List (Option String × PyStr)) (ea : List (Option String)) (r)
    (h : findDeadkeysLoop l₁ dkid dk pairs ea = .ok r) :
    findDeadkeysLoop (l₁ ++ l₂) dkid dk pairs ea =
      findDeadkeysLoop l₂ r.1 r.2.1 r.2.2.1 r.2.2.2 := by
  induction l₁ generalizing dkid dk pairs ea with
  | nil =>
    simp only [findDeadkeysLoop] at h
    injection h with h
    subst h
    rfl
  | cons e t ih =>
    by_cases he : e.ext = []
    · rw [findDeadkeysLoop_cons e t dkid dk pairs ea he] at h
      rw [List.cons_append, findDeadkeysLoop_cons e (t ++ l₂) dkid dk pairs ea he]
      exact ih _ _ _ _ h
    · rw [findDeadkeysLoop_cons_error e t dkid dk pairs ea he] at h
      exact absurd h (by simp)

theorem findDeadkeysLoop_preserves_state (l : List ActionEntry) (st : String)
    (h : ∀ e ∈ l, e.ext = [] ∧ (e.state ≠ st ∨ e.result = some "0020"))
    (dkid : Option (Option String)) (dk : List (String × PyStr))
    (pairs : List (Option String × PyStr)) (ea : List (Option String)) :
    ∃ r, findDeadkeysLoop l dkid dk pairs ea = .ok r ∧
      alookup r.2.1 st = alookup dk st := by
  induction l generalizing dkid dk pairs ea with
  | nil => exact ⟨_, rfl, rfl⟩
  | cons e t ih =>
    have he := h e (by simp)
    rw [findDeadkeysLoop_cons e t dkid dk pairs ea he.1]
    have ht : ∀ e' ∈ t, e'.ext = [] ∧ (e'.state ≠ st ∨ e'.result = some "0020") :=
      fun e' he' => h e' (by simp [he'])
    by_cases hw : some e.action =
        (if e.state = "none" ∧ e.action_type = "output" ∧ e.result = some "0020"
          then some e.action else dkid) ∧ e.result ≠ some "0020"
    · rcases he.2 with hne | h20
      · rw [if_pos hw]
        obtain ⟨r, hr, hl⟩ := ih ht _ _ _ _
        refine ⟨r, hr, ?_⟩
        rw [hl, alookup_dset, if_neg hne]
      · exact absurd h20 hw.2
    · rw [if_neg hw]
      exact ih ht _ _ _ _

theorem findDeadkeysLoop_block_lookup (A : Option String) (st ty : String)
    (r : PyStr) (hr : r ≠ some "0020") (b2 : List ActionEntry)
    (hb2 : ∀ e ∈ b2, e.ext = [] ∧ (e.state ≠ st ∨ e.result = some "0020"))
    (dk : List (String × PyStr)) (pairs : List (Option String × PyStr))
    (ea : List (Option String)) :
    ∃ res, findDeadkeysLoop (⟨A, st, ty, r, []⟩ :: b2) (some A) dk pairs ea =
        .ok res ∧ alookup res.2.1 st = some r := by
  rw [findDeadkeysLoop_cons _ _ _ _ _ _ rfl]
  have hd : (if (⟨A, st, ty, r, []⟩ : ActionEntry).state = "none" ∧
      (⟨A, st, ty, r, []⟩ : ActionEntry).action_type = "output" ∧
      (⟨A, st, ty, r, []⟩ : ActionEntry).result = some "0020"
      then some (⟨A, st, ty, r, []⟩ : ActionEntry).action else some A) = some A := by
    split <;> rfl
  rw [hd]
  rw [if_pos ⟨rfl, hr⟩]
  obtain ⟨res, hres, hl⟩ := findDeadkeysLoop_preserves_state b2 st hb2 (some A)
    (dset dk st r)
    (if st = "none" ∧ ty = "next" then pairs ++ [(A, r)] else pairs)
    (if st = "none" ∧ ty = "next" then ea ++ [(A : Option String)] else ea)
  refine ⟨res, hres, ?_⟩
  rw [hl, alookup_dset, if_pos rfl]

theorem findDeadkeysLoop_cons_space (A : Option String) (t : List ActionEntry)
    (dkid : Option (Option String)) (dk : List (String × PyStr))
    (pairs : List (Option String × PyStr)) (ea : List (Option String)) :
    findDeadkeysLoop (⟨A, "none", "output", some "0020", []⟩ :: t) dkid dk pairs ea =
      findDeadkeysLoop t (some A) dk pairs ea := by
  simp [findDeadkeysLoop]

theorem findDeadkeysLoop_keeps_candidate (l : List ActionEntry) (A : Option String)
    (h : ∀ e ∈ l, e.ext = [] ∧
      (¬(e.state = "none" ∧ e.action_type = "output" ∧ e.result = some "0020") ∨
        e.action = A))
    (dk : List (String × PyStr)) (pairs : List (Option String × PyStr))
    (ea : List (Option String)) :
    ∃ r, findDeadkeysLoop l (some A) dk pairs ea = .ok r ∧ r.1 = some A := by
  induction l generalizing dk pairs ea with
  | nil => exact ⟨_, rfl, rfl⟩
  | cons e t ih =>
    have he := h e (by simp)
    rw [findDeadkeysLoop_cons e t (some A) dk pairs ea he.1]
    have hd : (if e.state = "none" ∧ e.action_type = "output" ∧
        e.result = some "0020" then some e.action else some A) = some A := by
      rcases he.2 with hn | ha
      · rw [if_neg hn]
      · rw [ha, ite_self]
    rw [hd]
    exact ih (fun e' he' => h e' (by simp [he'])) _ _ _

/-- C6 (amended): `findDeadkeys` registers, for a dead-key action id, the
state of every non-space entry of that id occurring at or after the id's
`none`/`output`/`0020` entry in the action list, provided every entry
between that trigger and the capturing entry either is not itself a
`none`/`output`/`0020` trigger or belongs to the same id (so the id is
still the current dead-key candidate at the capturing entry), and no later
entry carries the same state with a non-space result; the registry then
maps that state to the entry's result.  Non-space entries occurring before
the `none`/`0020` entry are not captured (see the counterexample). -/
theorem c6_deadkeys_registered (s : KeylayoutParser) (A : Option String)
    (pre mid b2 post : List ActionEntry) (st ty : String) (r : PyStr)
    (hl : s.action_list =
      pre ++ ⟨A, "none", "output", some "0020", []⟩ ::
        (mid ++ ⟨A, st, ty, r, []⟩ :: (b2 ++ post)))
    (hpre : ∀ e ∈ pre, e.ext = [])
    (hmid : ∀ e ∈ mid, e.ext = [] ∧
      (¬(e.state = "none" ∧ e.action_type = "output" ∧ e.result = some "0020") ∨
        e.action = A))
    (hr : r ≠ some "0020")
    (hb2 : ∀ e ∈ b2 ++ post, e.ext = [] ∧ (e.state ≠ st ∨ e.result = some "0020")) :
    ∃ s', findDeadkeys s = .ok s' ∧ alookup s'.deadkeys st = some r := by
  obtain ⟨r₀, hr₀⟩ := findDeadkeysLoop_ok pre hpre none s.deadkeys [] s.empty_actions
  obtain ⟨r₁, hr₁, hr₁c⟩ := findDeadkeysLoop_keeps_candidate mid A hmid
    r₀.2.1 r₀.2.2.1 r₀.2.2.2
  obtain ⟨res, hres, hlook⟩ := findDeadkeysLoop_block_lookup A st ty r hr
    (b2 ++ post) hb2 r₁.2.1 r₁.2.2.1 r₁.2.2.2
  have h₁ : findDeadkeysLoop s.action_list none s.deadkeys [] s.empty_actions =
      .ok res := by
    rw [hl, findDeadkeysLoop_append pre _ none s.deadkeys [] s.empty_actions r₀ hr₀,
        findDeadkeysLoop_cons_space A _ r₀.1 r₀.2.1 r₀.2.2.1 r₀.2.2.2,
        findDeadkeysLoop_append mid _ (some A) r₀.2.1 r₀.2.2.1 r₀.2.2.2 r₁ hr₁,
        hr₁c]
    exact hres
  have h₂ : findDeadkeys s = .ok
      { s with deadkeys := res.2.1, empty_actions := res.2.2.2
               action_basekeys := (resolvePairs res.2.1 res.2.2.1).foldl
                 (fun m p => dset m p.1 p.2) s.action_basekeys } := by
    unfold findDeadkeys
    rw [h₁]
    rfl
  exact ⟨_, h₂, hlook⟩

/-- C6 (witness): a dead-key action with two states listed after its
`none`/`0020` trigger; the `s2` capture, separated from the trigger by the
intervening `s1` entry, is registered with its glyph `02dc`. -/
theorem c6_witness :
    ∃ s', findDeadkeys c6wstate = .ok s' ∧
      alookup s'.deadkeys "s2" = some (some "02dc") := by
  exact c6_deadkeys_registered c6wstate (some "d") []
    [⟨some "d", "s1", "output", some "02c6", []⟩] [] []
    "s2" "output" (some "02dc") rfl (by decide) (by decide) (by decide)
    (by decide)

/-! ## C7: provenance and order of the dead-key composition table -/

theorem alookup_dkAppend_self (kd : List (PyStr × List (PyStr × PyStr)))
    (g : PyStr) (p : PyStr × PyStr) :
    alookup (dkAppend kd g p) g =
      some ((alookup kd g).getD [] ++ [p]) := by
  unfold dkAppend
  cases h : alookup kd g with
  | none => simp [alookup_dset, h]
  | some l => simp [alookup_dset, h]

theorem alookup_dkAppend_ne (kd : List (PyStr × List (PyStr × PyStr)))
    (g g' : PyStr) (p : PyStr × PyStr) (h : ¬g = g') :
    alookup (dkAppend kd g p) g' = alookup kd g' := by
  unfold dkAppend
  cases hk : alookup kd g with
  | none => rw [alookup_dset, if_neg h]
  | some l => rw [alookup_dset, if_neg h]

theorem eligiblePairs_cons (dk : List (String × PyStr)) (e : ActionEntry)
    (t : List ActionEntry) (g : PyStr) :
    eligiblePairs dk (e :: t) g =
      (match (extendDead dk e).ext with
       | [a, b] =>
         if b = g then (a, (extendDead dk e).result) :: eligiblePairs dk t g
         else eligiblePairs dk t g
       | _ => eligiblePairs dk t g) := by
  simp only [eligiblePairs, List.filterMap_cons]
  cases hx : (extendDead dk e).ext with
  | nil => rfl
  | cons a rest =>
    cases rest with
    | nil => rfl
    | cons b rest2 =>
      cases rest2 with
      | nil =>
        by_cases hg : b = g
        · simp [hg]
        · simp [hg]
      | cons c rest3 => rfl

theorem makeDeadKeyTableLoop_cons (dk : List (String × PyStr)) (e : ActionEntry)
    (t : List ActionEntry) (kd : List (PyStr × List (PyStr × PyStr))) :
    (makeDeadKeyTableLoop dk (e :: t) kd).1 =
      (makeDeadKeyTableLoop dk t
        (match (extendDead dk e).ext with
         | [a, b] => dkAppend kd b (a, (extendDead dk e).result)
         | _ => kd)).1 := by
  simp only [makeDeadKeyTableLoop]

theorem makeDeadKeyTableLoop_lookup (dk : List (String × PyStr))
    (l : List ActionEntry) (kd : List (PyStr × List (PyStr × PyStr))) (g : PyStr) :
    alookup (makeDeadKeyTableLoop dk l kd).1 g =
      keyDictExpect (alookup kd g) (eligiblePairs dk l g) := by
  induction l generalizing kd with
  | nil => cases h : alookup kd g <;>
      simp [makeDeadKeyTableLoop, eligiblePairs, keyDictExpect, h]
  | cons e t ih =>
    rw [makeDeadKeyTableLoop_cons, eligiblePairs_cons]
    cases hx : (extendDead dk e).ext with
    | nil =>
      simp only [hx]
      exact ih kd
    | cons a rest =>
      cases rest with
      | nil =>
        simp only [hx]
        exact ih kd
      | cons b rest2 =>
        cases rest2 with
        | nil =>
          by_cases hg : b = g
          · subst hg
            simp only [hx, if_pos rfl]
            rw [ih (dkAppend kd b (a, (extendDead dk e).result)),
                alookup_dkAppend_self]
            cases hk : alookup kd b with
            | none => simp [keyDictExpect, hk]
            | some init => simp [keyDictExpect, hk]
          · simp only [hx, if_neg hg]
            rw [ih (dkAppend kd b (a, (extendDead dk e).result)),
                alookup_dkAppend_ne kd b g _ hg]
        | cons c rest3 =>
          simp only [hx]
          exact ih kd

/-- C7: after `makeDeadKeyTable`, starting from an empty composition table,
the list stored for a dead-key glyph `g` is exactly `eligiblePairs`: the
`(base character, composed result)` pairs of those action entries that —
after `extendDead` resolves the state-level dead-key codepoint — carry both
appended fields (the resolved base character and the dead-key codepoint,
i.e. reached length 6), in encounter order over the action list; an entry
lacking either field contributes nothing, and a glyph with no eligible
entry has no key. -/
theorem c7_composition_table (s : KeylayoutParser) (g : PyStr)
    (h : s.key_dict = []) :
    alookup (makeDeadKeyTable s).key_dict g =
      (if eligiblePairs s.deadkeys s.action_list g = [] then none
       else some (eligiblePairs s.deadkeys s.action_list g)) := by
  show alookup (makeDeadKeyTableLoop s.deadkeys s.action_list s.key_dict).1 g = _
  rw [makeDeadKeyTableLoop_lookup, h]
  rfl

/-- C7 (witness): a state holding one extended action entry (base character
`0061`, result `00e2`) whose state `s1` resolves to the dead key `02c6`
yields the single composition pair `(0061, 00e2)` under `02c6`, while a
glyph with no eligible record (`0300`) is absent. -/
theorem c7_witness :
    alookup (makeDeadKeyTable
      { initParser with
        deadkeys := [("s1", some "02c6")]
        action_list :=
          [⟨some "6", "s1", "output", some "00e2", [some "0061"]⟩] }).key_dict
      (some "02c6") = some [(some "0061", some "00e2")] ∧
    alookup (makeDeadKeyTable
      { initParser with
        deadkeys := [("s1", some "02c6")]
        action_list :=
          [⟨some "6", "s1", "output", some "00e2", [some "0061"]⟩] }).key_dict
      (some "0300") = none := by
  constructor
  · rw [c7_composition_table _ _ rfl]
    rfl
  · rw [c7_composition_table _ _ rfl]
    rfl

/-! ## C4: the three-way caps-lock classification of `writeKeyTable` -/

theorem joinTab_ok (l : List PyStr) (h : ∀ x ∈ l, x.isSome) :
    ∃ str, joinTab l = .ok str := by
  induction l with
  | nil => exact ⟨"", rfl⟩
  | cons x t ih =>
    obtain ⟨xs, hxs⟩ := Option.isSome_iff_exists.mp (h x (by simp))
    obtain ⟨rest, hrest⟩ := ih (fun y hy => h y (by simp [hy]))
    subst hxs
    refine ⟨if t = [] then xs else xs ++ "\t" ++ rest, ?_⟩
    simp [joinTab, hrest]

theorem char_description_ok (u : String → String) (p : PyStr)
    (h : p.isSome = true) : ∃ d, char_description u p = .ok d := by
  obtain ⟨v, rfl⟩ := Option.isSome_iff_exists.mp h
  simp only [char_description]
  split
  · exact ⟨_, rfl⟩
  · exact ⟨_, rfl⟩

theorem keyRowFields_ok (s : KeylayoutParser) (u : String → String)
    (outputs : List (Int × PyStr)) (kh kn : String)
    (d0 d1 d2 d3 d4 : String)
    (h0 : char_description u (getOutput s outputs "default") = .ok d0)
    (h1 : char_description u (getOutput s outputs "shift") = .ok d1)
    (h2 : char_description u (getOutput s outputs "cmd") = .ok d2)
    (h3 : char_description u (getOutput s outputs "alt") = .ok d3)
    (h4 : char_description u (getOutput s outputs "altshift") = .ok d4) :
    keyRowFields s u outputs kh kn = .ok
      [ some kh, some kn, some "", some
          (if getOutput s outputs "caps" = getOutput s outputs "default" then "0"
           else if getOutput s outputs "caps" = getOutput s outputs "shift" then "1"
           else "SGCap")
      , getOutput s outputs "default", getOutput s outputs "shift"
      , getOutput s outputs "cmd", getOutput s outputs "cmdcaps"
      , getOutput s outputs "alt", getOutput s outputs "altshift"
      , some ("// " ++ d0 ++ ", " ++ d1 ++ ", " ++ d2 ++ ", " ++ d3
          ++ ", " ++ d4) ] := by
  simp only [keyRowFields, h0, h1, h2, h3, h4, bind, Except.bind]

theorem sgcapRow_ok (u : String → String) (c sc : PyStr)
    (hc : c.isSome = true) (hsc : sc.isSome = true) :
    ∃ ex, sgcapRow u c sc = .ok ex := by
  obtain ⟨e0, h0⟩ := char_description_ok u c hc
  obtain ⟨e1, h1⟩ := char_description_ok u sc hsc
  refine ⟨"-1\t-1\t\t0\t" ++ pyShowStr c ++ "\t" ++ pyShowStr sc
      ++ "\t\t\t\t\t// " ++ e0 ++ ", " ++ e1, ?_⟩
  simp only [sgcapRow, h0, h1, bind, Except.bind]

/-- C4: for every key row built (without raising) by `writeKeyTable` —
the six main-row outputs are defined strings, and in the `SGCap` case the
caps and shift-caps outputs are too — the caps flag (column 3 of the
keytable) is `"0"` when the caps output equals the default output, `"1"`
when it instead equals the shift output, and `"SGCap"` otherwise; and
exactly in the `SGCap` case one additional row is emitted, the `sgcapRow`
carrying the caps and shift-caps outputs. -/
theorem c4_sgcap_classification (s : KeylayoutParser) (uniName : String → String)
    (outputs : List (Int × PyStr)) (kh kn : String)
    (hdef : (getOutput s outputs "default").isSome = true)
    (hsh : (getOutput s outputs "shift").isSome = true)
    (hcmd : (getOutput s outputs "cmd").isSome = true)
    (hcc : (getOutput s outputs "cmdcaps").isSome = true)
    (halt : (getOutput s outputs "alt").isSome = true)
    (has : (getOutput s outputs "altshift").isSome = true)
    (hsg : getOutput s outputs "caps" ≠ getOutput s outputs "default" →
      getOutput s outputs "caps" ≠ getOutput s outputs "shift" →
      (getOutput s outputs "caps").isSome = true ∧
        (getOutput s outputs "shiftcaps").isSome = true) :
    (keyRowFields s uniName outputs kh kn).map (fun f => f.get? 3) =
      .ok (some (some
        (if getOutput s outputs "caps" = getOutput s outputs "default" then "0"
         else if getOutput s outputs "caps" = getOutput s outputs "shift" then "1"
         else "SGCap"))) ∧
    (if getOutput s outputs "caps" = getOutput s outputs "default" then
        ∃ main, keyRows s uniName outputs kh kn = .ok [main]
     else if getOutput s outputs "caps" = getOutput s outputs "shift" then
        ∃ main, keyRows s uniName outputs kh kn = .ok [main]
     else
        ∃ main extra,
          sgcapRow uniName (getOutput s outputs "caps")
              (getOutput s outputs "shiftcaps") = .ok extra ∧
          keyRows s uniName outputs kh kn = .ok [main, extra]) := by
  obtain ⟨d0, h0⟩ := char_description_ok uniName _ hdef
  obtain ⟨d1, h1⟩ := char_description_ok uniName _ hsh
  obtain ⟨d2, h2⟩ := char_description_ok uniName _ hcmd
  obtain ⟨d3, h3⟩ := char_description_ok uniName _ halt
  obtain ⟨d4, h4⟩ := char_description_ok uniName _ has
  have hfields := keyRowFields_ok s uniName outputs kh kn d0 d1 d2 d3 d4
    h0 h1 h2 h3 h4
  have hall : ∀ x ∈
      [ some kh, some kn, some "", some
          (if getOutput s outputs "caps" = getOutput s outputs "default" then "0"
           else if getOutput s outputs "caps" = getOutput s outputs "shift" then "1"
           else "SGCap")
      , getOutput s outputs "default", getOutput s outputs "shift"
      , getOutput s outputs "cmd", getOutput s outputs "cmdcaps"
      , getOutput s outputs "alt", getOutput s outputs "altshift"
      , some ("// " ++ d0 ++ ", " ++ d1 ++ ", " ++ d2 ++ ", " ++ d3
          ++ ", " ++ d4) ], x.isSome = true := by
    intro x hxm
    simp only [List.mem_cons, List.not_mem_nil, or_false] at hxm
    rcases hxm with rfl | rfl | rfl | rfl | rfl | rfl | rfl | rfl | rfl | rfl | rfl
    · rfl
    · rfl
    · rfl
    · rfl
    · exact hdef
    · exact hsh
    · exact hcmd
    · exact hcc
    · exact halt
    · exact has
    · rfl
  obtain ⟨main, hmain⟩ := joinTab_ok _ hall
  have hget : ([ some kh, some kn, some "", some
          (if getOutput s outputs "caps" = getOutput s outputs "default" then "0"
           else if getOutput s outputs "caps" = getOutput s outputs "shift" then "1"
           else "SGCap")
      , getOutput s outputs "default", getOutput s outputs "shift"
      , getOutput s outputs "cmd", getOutput s outputs "cmdcaps"
      , getOutput s outputs "alt", getOutput s outputs "altshift"
      , some ("// " ++ d0 ++ ", " ++ d1 ++ ", " ++ d2 ++ ", " ++ d3
          ++ ", " ++ d4) ] : List PyStr).get? 3 = some (some
          (if getOutput s outputs "caps" = getOutput s outputs "default" then "0"
           else if getOutput s outputs "caps" = getOutput s outputs "shift" then "1"
           else "SGCap")) := rfl
  refine ⟨by rw [hfields]; rfl, ?_⟩
  by_cases hc1 : getOutput s outputs "caps" = getOutput s outputs "default"
  · rw [if_pos hc1]
    refine ⟨main, ?_⟩
    simp only [keyRows, hfields, hmain, bind, Except.bind]
    rw [if_neg (by rw [hget, if_pos hc1]; decide)]
  · rw [if_neg hc1]
    by_cases hc2 : getOutput s outputs "caps" = getOutput s outputs "shift"
    · rw [if_pos hc2]
      refine ⟨main, ?_⟩
      simp only [keyRows, hfields, hmain, bind, Except.bind]
      rw [if_neg (by rw [hget, if_neg hc1, if_pos hc2]; decide)]
    · rw [if_neg hc2]
      obtain ⟨hcaps, hscaps⟩ := hsg hc1 hc2
      obtain ⟨extra, hext⟩ := sgcapRow_ok uniName _ _ hcaps hscaps
      refine ⟨main, extra, hext, ?_⟩
      simp only [keyRows, hfields, hmain, bind, Except.bind]
      rw [if_pos (by rw [hget, if_neg hc1, if_neg hc2]), hext]

/-- C4 (witness): a key whose eight outputs are concrete defined strings,
with a caps output differing from both the default and the shift outputs,
is classified `SGCap` with one extra row carrying the caps and shift-caps
outputs. -/
theorem c4_witness :
    (keyRowFields
      { initParser with keymap_assignments :=
          [("default", 0), ("shift", 1), ("alt", 2), ("altshift", 3),
           ("caps", 4), ("cmd", 5), ("cmdcaps", 6), ("shiftcaps", 7)] }
      (fun _ => "X")
      [(0, some "0061"), (1, some "0041"), (2, some "00e1"), (3, some "00c1"),
       (4, some "03b1"), (5, some "0062"), (6, some "0042"), (7, some "0391")]
      "1E" "A").map (fun f => f.get? 3) =
      .ok (some (some
        (if (some "03b1" : PyStr) = some "0061" then "0"
         else if (some "03b1" : PyStr) = some "0041" then "1"
         else "SGCap"))) ∧
    (if (some "03b1" : PyStr) = some "0061" then
        ∃ main, keyRows
          { initParser with keymap_assignments :=
              [("default", 0), ("shift", 1), ("alt", 2), ("altshift", 3),
               ("caps", 4), ("cmd", 5), ("cmdcaps", 6), ("shiftcaps", 7)] }
          (fun _ => "X")
          [(0, some "0061"), (1, some "0041"), (2, some "00e1"), (3, some "00c1"),
           (4, some "03b1"), (5, some "0062"), (6, some "0042"), (7, some "0391")]
          "1E" "A" = .ok [main]
     else if (some "03b1" : PyStr) = some "0041" then
        ∃ main, keyRows
          { initParser with keymap_assignments :=
              [("default", 0), ("shift", 1), ("alt", 2), ("altshift", 3),
               ("caps", 4), ("cmd", 5), ("cmdcaps", 6), ("shiftcaps", 7)] }
          (fun _ => "X")
          [(0, some "0061"), (1, some "0041"), (2, some "00e1"), (3, some "00c1"),
           (4, some "03b1"), (5, some "0062"), (6, some "0042"), (7, some "0391")]
          "1E" "A" = .ok [main]
     else
        ∃ main extra,
          sgcapRow (fun _ => "X") (some "03b1") (some "0391") = .ok extra ∧
          keyRows
            { initParser with keymap_assignments :=
                [("default", 0), ("shift", 1), ("alt", 2), ("altshift", 3),
                 ("caps", 4), ("cmd", 5), ("cmdcaps", 6), ("shiftcaps", 7)] }
            (fun _ => "X")
            [(0, some "0061"), (1, some "0041"), (2, some "00e1"), (3, some "00c1"),
             (4, some "03b1"), (5, some "0062"), (6, some "0042"), (7, some "0391")]
            "1E" "A" = .ok [main, extra]) := by
  exact c4_sgcap_classification _ _ _ "1E" "A" rfl rfl rfl rfl rfl rfl
    (fun _ _ => ⟨rfl, rfl⟩)

/-! ## The two loops of `makeOutputDict` -/

theorem alookup_append {α β : Type} [DecidableEq α] (l₁ l₂ : List (α × β)) (a : α) :
    alookup (l₁ ++ l₂) a = firstSome (alookup l₁ a) (alookup l₂ a) := by
  induction l₁ with
  | nil => simp [alookup, firstSome]
  | cons p t ih =>
    obtain ⟨k, v⟩ := p
    by_cases h : k = a
    · simp [alookup, h, firstSome]
    · simp [alookup, h, ih]

theorem alookup_range_pairs (m : Nat) (v : PyStr) (i : Int) :
    alookup ((List.range m).map (fun k => (Int.ofNat k, v))) i =
      if 0 ≤ i ∧ i < (m : Int) then some v else none := by
  induction m with
  | zero =>
    rw [if_neg (by omega)]
    rfl
  | succ m ih =>
    rw [List.range_succ, List.map_append, alookup_append, ih]
    by_cases h : 0 ≤ i ∧ i < (m : Int)
    · rw [if_pos h, if_pos (by omega)]
      rfl
    · rw [if_neg h]
      by_cases h2 : (Int.ofNat m) = i
      · have h2c : (m : Int) = i := by exact_mod_cast h2
        rw [if_pos (by omega)]
        simp [alookup, firstSome, h, h2c]
      · have h2c : ¬(m : Int) = i := fun hh => h2 (by exact_mod_cast hh)
        rw [if_neg (by omega)]
        simp [alookup, firstSome, h, h2c]

theorem alookup_initRow (n i : Int) (h0 : 0 ≤ i) (h1 : i ≤ n) :
    alookup (initRow n) i = some (some "-1") := by
  unfold initRow rangeInt
  rw [List.map_map]
  have he : ((fun j => (j, (some "-1" : PyStr))) ∘ Int.ofNat) =
      fun k : Nat => (Int.ofNat k, (some "-1" : PyStr)) := rfl
  rw [he, alookup_range_pairs]
  rw [if_pos (by omega)]

theorem initRow_ne_nil (n : Int) (hn : 0 ≤ n) : initRow n ≠ [] := by
  unfold initRow rangeInt
  have h : (n + 1).toNat = n.toNat + 1 := by omega
  rw [h, List.range_succ]
  simp

theorem filterLoop_rows (first : String) (n : Int) (fuel : Nat) :
    ∀ (l : List KeyEntry) (dict : List (Int × List (Int × PyStr))) (pos : Nat),
    (∀ c r, alookup dict c = some r → r = initRow n) →
    ∀ c r, alookup (filterLoop first n fuel l dict pos).2 c = some r →
      r = initRow n := by
  induction fuel with
  | zero => intro l dict pos h; exact h
  | succ fuel ih =>
    intro l dict pos h
    rw [filterLoop]
    split
    · apply ih
      intro c r hr
      split at hr
      · exact h c r hr
      · rw [alookup_dset] at hr
        split at hr
        · exact (Option.some.inj hr).symm
        · exact h c r hr
    · exact h

theorem filterLoop_keys_isSome (first : String) (n : Int) (fuel : Nat) :
    ∀ (l : List KeyEntry) (dict : List (Int × List (Int × PyStr))) (pos : Nat) (c : Int),
    (alookup dict c).isSome = true →
    (alookup (filterLoop first n fuel l dict pos).2 c).isSome = true := by
  induction fuel with
  | zero => intro l dict pos c h; exact h
  | succ fuel ih =>
    intro l dict pos c h
    rw [filterLoop]
    split
    · apply ih
      split
      · exact h
      · rw [alookup_dset_isSome]
        split
        · rfl
        · exact h
    · exact h

theorem writeLoop_cons (dict : List (Int × List (Int × PyStr))) (e : KeyEntry)
    (t : List KeyEntry) :
    writeLoop dict (e :: t) =
      (match writeValue e with
       | .error m => .error m
       | .ok v =>
         match alookup dict e.key_code with
         | none => .error "KeyError: key code not initialised"
         | some inner =>
           writeLoop (dset dict e.key_code (dset inner e.key_index v)) t) := by
  simp only [writeLoop, bind, Except.bind]
  cases writeValue e <;> rfl

theorem writeLoop_keys (l : List KeyEntry) :
    ∀ (dict dict' : List (Int × List (Int × PyStr))),
    writeLoop dict l = .ok dict' →
    ∀ c, (alookup dict' c).isSome = (alookup dict c).isSome := by
  induction l with
  | nil =>
    intro dict dict' h c
    simp only [writeLoop] at h
    injection h with h
    subst h
    rfl
  | cons e t ih =>
    intro dict dict' h c
    rw [writeLoop_cons] at h
    cases hw : writeValue e with
    | error m =>
      simp only [hw] at h
      exact absurd h (by simp)
    | ok v =>
      simp only [hw] at h
      cases hd : alookup dict e.key_code with
      | none =>
        simp only [hd] at h
        exact absurd h (by simp)
      | some inner =>
        simp only [hd] at h
        have hkeys := ih _ _ h c
        rw [hkeys, alookup_dset_isSome]
        split
        · rename_i heq
          subst heq
          rw [hd]
          rfl
        · rfl

theorem writeLoop_lookup2 (l : List KeyEntry) :
    ∀ (dict dict' : List (Int × List (Int × PyStr))),
    writeLoop dict l = .ok dict' →
    ∀ c i, lookup2 dict' c i = firstSome (lastWriteVal l c i) (lookup2 dict c i) := by
  induction l with
  | nil =>
    intro dict dict' h c i
    simp only [writeLoop] at h
    injection h with h
    subst h
    rfl
  | cons e t ih =>
    intro dict dict' h c i
    rw [writeLoop_cons] at h
    cases hw : writeValue e with
    | error m =>
      simp only [hw] at h
      exact absurd h (by simp)
    | ok v =>
      simp only [hw] at h
      cases hd : alookup dict e.key_code with
      | none =>
        simp only [hd] at h
        exact absurd h (by simp)
      | some inner =>
        simp only [hd] at h
        rw [ih _ _ h c i]
        simp only [lastWriteVal]
        cases hlast : lastWriteVal t c i with
        | some w => rfl
        | none =>
          simp only [firstSome]
          by_cases hc : e.key_code = c
          · by_cases hi : e.key_index = i
            · rw [if_pos ⟨hc, hi⟩, hw]
              subst hc hi
              simp [lookup2, alookup_dset]
            · rw [if_neg (fun hp => hi hp.2)]
              subst hc
              simp [lookup2, alookup_dset, hd, hi]
          · rw [if_neg (fun hp => hc hp.1)]
            simp [lookup2, alookup_dset, hc]

theorem lastWriteVal_none_of_no_write (l : List KeyEntry) (c i : Int)
    (h : ∀ e ∈ l, ¬(e.key_code = c ∧ e.key_index = i)) :
    lastWriteVal l c i = none := by
  induction l with
  | nil => rfl
  | cons e t ih =>
    simp only [lastWriteVal, ih (fun e' he' => h e' (by simp [he']))]
    rw [if_neg (h e (by simp))]

theorem makeOutputDict_eq (s : KeylayoutParser) (e0 : KeyEntry)
    (rest : List KeyEntry) (hol : s.output_list = e0 :: rest) :
    makeOutputDict s =
      (match writeLoop
          (filterLoop e0.keymap_set s.number_of_keymaps ((e0 :: rest).length + 1)
            (e0 :: rest) s.output_dict 0).2
          (filterLoop e0.keymap_set s.number_of_keymaps ((e0 :: rest).length + 1)
            (e0 :: rest) s.output_dict 0).1 with
       | .error m => .error m
       | .ok dict =>
         .ok { s with
               output_list := (filterLoop e0.keymap_set s.number_of_keymaps
                 ((e0 :: rest).length + 1) (e0 :: rest) s.output_dict 0).1
               output_dict := dict }) := by
  unfold makeOutputDict
  rw [hol]

/-! ## C10: every table row covers all keymap indices, defaulting to `-1` -/

/-- C10: starting from an empty output table, when `makeOutputDict`
completes, every key code present
in the final table carries a value for every keymap index from 0 through
`number_of_keymaps`, and that value is the sentinel `'-1'` at every index no
surviving output-list entry wrote to. -/
theorem c10_rows_complete (s s' : KeylayoutParser)
    (h0 : s.output_dict = [])
    (h : makeOutputDict s = .ok s') :
    ∀ c row, alookup s'.output_dict c = some row →
      ∀ i : Int, 0 ≤ i → i ≤ s.number_of_keymaps →
        (alookup row i).isSome = true ∧
        ((∀ e ∈ s'.output_list, ¬(e.key_code = c ∧ e.key_index = i)) →
          alookup row i = some (some "-1")) := by
  cases hol : s.output_list with
  | nil =>
    unfold makeOutputDict at h
    rw [hol] at h
    exact absurd h (by simp)
  | cons e0 rest =>
    rw [makeOutputDict_eq s e0 rest hol] at h
    cases hw : writeLoop
        (filterLoop e0.keymap_set s.number_of_keymaps ((e0 :: rest).length + 1)
          (e0 :: rest) s.output_dict 0).2
        (filterLoop e0.keymap_set s.number_of_keymaps ((e0 :: rest).length + 1)
          (e0 :: rest) s.output_dict 0).1 with
    | error m =>
      simp only [hw] at h
      exact absurd h (by simp)
    | ok dict =>
      simp only [hw] at h
      injection h with h
      subst h
      intro c row hrow i hi0 hi1
      have hrows := filterLoop_rows e0.keymap_set s.number_of_keymaps
        ((e0 :: rest).length + 1) (e0 :: rest) s.output_dict 0
        (by intro c' r' hr'; rw [h0] at hr'; exact absurd hr' (by simp [alookup]))
      have hkeys := writeLoop_keys _ _ _ hw c
      have hlk := writeLoop_lookup2 _ _ _ hw c i
      simp only [] at hrow
      have hsome : (alookup (filterLoop e0.keymap_set s.number_of_keymaps
          ((e0 :: rest).length + 1) (e0 :: rest) s.output_dict 0).2 c).isSome = true := by
        rw [← hkeys, hrow]
        rfl
      obtain ⟨row₀, hrow₀⟩ := Option.isSome_iff_exists.mp hsome
      have hrow₀init : row₀ = initRow s.number_of_keymaps := hrows c row₀ hrow₀
      have hbase : lookup2 (filterLoop e0.keymap_set s.number_of_keymaps
          ((e0 :: rest).length + 1) (e0 :: rest) s.output_dict 0).2 c i =
          some (some "-1") := by
        simp only [lookup2, hrow₀]
        rw [hrow₀init]
        exact alookup_initRow s.number_of_keymaps i hi0 hi1
      have hrowi : lookup2 dict c i = alookup row i := by
        simp only [lookup2, hrow]
      constructor
      · rw [← hrowi, hlk, hbase]
        cases hlast : lastWriteVal
            (filterLoop e0.keymap_set s.number_of_keymaps ((e0 :: rest).length + 1)
              (e0 :: rest) s.output_dict 0).1 c i <;> rfl
      · intro hnw
        have hlnone := lastWriteVal_none_of_no_write _ c i hnw
        rw [← hrowi, hlk, hlnone, hbase]
        rfl

/-- C10 (witness): on `c10wstate` (one surviving key of code 5 writing index
0, three declared indices), the built table has a row at code 5 with a value
at index 1 and that value is the sentinel `'-1'`. -/
theorem c10_witness :
    ∃ s' row, makeOutputDict c10wstate = .ok s' ∧
      alookup s'.output_dict 5 = some row ∧
      (alookup row 1).isSome = true ∧ alookup row 1 = some (some "-1") := by
  refine ⟨_, _, rfl, rfl, ?_, ?_⟩
  · exact (c10_rows_complete c10wstate _ rfl rfl 5 _ rfl 1
      (by decide) (by decide)).1
  · exact (c10_rows_complete c10wstate _ rfl rfl 5 _ rfl 1
      (by decide) (by decide)).2 (by decide)

/-! ## Behaviour of the builder on single-keymap-set states -/

theorem transformKey_fields (ea : List (Option String))
    (abk : List (Option String × PyStr)) (e : KeyEntry) :
    (transformKey ea abk e).keymap_set = e.keymap_set ∧
    (transformKey ea abk e).key_index = e.key_index ∧
    (transformKey ea abk e).key_code = e.key_code := by
  by_cases hm : e.result ∈ ea <;>
    simp only [transformKey, hm, if_true, if_false, ite_true, ite_false] <;>
    (split <;> simp)

theorem transformKey_id (ea : List (Option String))
    (abk : List (Option String × PyStr)) (e : KeyEntry)
    (h1 : e.result ∉ ea) (h2 : alookup abk e.result = none) :
    transformKey ea abk e = e := by
  simp only [transformKey, if_neg h1, h2]

theorem findDeadkeys_preserves (s s' : KeylayoutParser)
    (h : findDeadkeys s = .ok s') :
    s'.key_list = s.key_list ∧ s'.output_list = s.output_list ∧
    s'.output_dict = s.output_dict ∧ s'.key_dict = s.key_dict ∧
    s'.number_of_keymaps = s.number_of_keymaps ∧
    s'.keymap_assignments = s.keymap_assignments := by
  unfold findDeadkeys at h
  cases hr : findDeadkeysLoop s.action_list none s.deadkeys [] s.empty_actions with
  | error m =>
    rw [hr] at h
    exact absurd h (by simp [bind, Except.bind])
  | ok r =>
    rw [hr] at h
    simp only [bind, Except.bind] at h
    injection h with h
    subst h
    exact ⟨rfl, rfl, rfl, rfl, rfl, rfl⟩

theorem filterLoop_no_removal (first : String) (n : Int) (l : List KeyEntry)
    (hall : ∀ e ∈ l, e.keymap_set = first) :
    ∀ (fuel pos : Nat) (dict : List (Int × List (Int × PyStr))),
    l.length - pos < fuel →
    filterLoop first n fuel l dict pos = (l, initFold n (l.drop pos) dict) := by
  intro fuel
  induction fuel with
  | zero => intro pos dict hf; omega
  | succ fuel ih =>
    intro pos dict hf
    by_cases h : pos < l.length
    · rw [filterLoop, dif_pos h]
      have hmem : l.get ⟨pos, h⟩ ∈ l := List.get_mem l pos h
      have hset : (l.get ⟨pos, h⟩).keymap_set = first := hall _ hmem
      rw [if_neg (by simpa using hset)]
      rw [ih (pos + 1) _ (by omega)]
      have hdrop : l.drop pos = l.get ⟨pos, h⟩ :: l.drop (pos + 1) := by
        exact List.drop_eq_getElem_cons h
      rw [hdrop]
      rfl
    · rw [filterLoop, dif_neg h]
      have hdrop : l.drop pos = [] := List.drop_eq_nil_of_le (by omega)
      rw [hdrop]
      rfl

theorem initFold_lookup (n : Int) (hn : initRow n ≠ []) (l : List KeyEntry) :
    ∀ (d : List (Int × List (Int × PyStr))) (c : Int),
    alookup (initFold n l d) c =
      if c ∈ l.map KeyEntry.key_code then some (initRow n) else alookup d c := by
  induction l with
  | nil => intro d c; simp [initFold]
  | cons e t ih =>
    intro d c
    simp only [initFold, if_neg hn, ih]
    by_cases hc : c ∈ t.map KeyEntry.key_code
    · rw [if_pos hc, if_pos (by simp [hc])]
    · rw [if_neg hc]
      rw [alookup_dset]
      by_cases he : e.key_code = c
      · rw [if_pos he, if_pos (by simp [he.symm])]
      · rw [if_neg he, if_neg (by
          simp only [List.map_cons, List.mem_cons, not_or]
          exact ⟨fun hh => he hh.symm, hc⟩)]

theorem writeLoop_ok (l : List KeyEntry) :
    ∀ (dict : List (Int × List (Int × PyStr))),
    (∀ e ∈ l, (writeValue e).isOk = true ∧ (alookup dict e.key_code).isSome = true) →
    ∃ d', writeLoop dict l = .ok d' := by
  induction l with
  | nil => intro dict _; exact ⟨dict, rfl⟩
  | cons e t ih =>
    intro dict h
    have he := h e (by simp)
    rw [writeLoop_cons]
    cases hw : writeValue e with
    | error m => rw [hw] at he; exact absurd he.1 (by simp [Except.isOk, Except.toBool])
    | ok v =>
      cases hd : alookup dict e.key_code with
      | none => rw [hd] at he; exact absurd he.2 (by simp)
      | some inner =>
        apply ih
        intro e' he'
        refine ⟨(h e' (by simp [he'])).1, ?_⟩
        rw [alookup_dset_isSome]
        split
        · rfl
        · exact (h e' (by simp [he'])).2

theorem lastWriteVal_mem (l : List KeyEntry) (c i : Int) (w : PyStr)
    (h : lastWriteVal l c i = some w) :
    ∃ e ∈ l, (e.key_code = c ∧ e.key_index = i) ∧ writeValue e = .ok w := by
  induction l with
  | nil => exact absurd h (by simp [lastWriteVal])
  | cons e t ih =>
    rw [lastWriteVal] at h
    cases ht : lastWriteVal t c i with
    | some w' =>
      simp only [ht, Option.some.injEq] at h
      subst h
      obtain ⟨e', he', hp, hw⟩ := ih ht
      exact ⟨e', by simp [he'], hp, hw⟩
    | none =>
      simp only [ht] at h
      by_cases hp : e.key_code = c ∧ e.key_index = i
      · rw [if_pos hp] at h
        cases hw : writeValue e with
        | error m =>
          simp only [hw] at h
          exact absurd h (by simp)
        | ok v =>
          simp only [hw, Option.some.injEq] at h
          subst h
          exact ⟨e, by simp, hp, hw⟩
      · rw [if_neg hp] at h
        exact absurd h (by simp)

theorem lastWriteVal_const (l : List KeyEntry) (c i : Int) (v : PyStr)
    (hex : ∃ e ∈ l, e.key_code = c ∧ e.key_index = i)
    (hall : ∀ e ∈ l, (e.key_code = c ∧ e.key_index = i) → writeValue e = .ok v) :
    lastWriteVal l c i = some v := by
  induction l with
  | nil => obtain ⟨e, he, _⟩ := hex; exact absurd he (by simp)
  | cons e t ih =>
    rw [lastWriteVal]
    cases ht : lastWriteVal t c i with
    | some w =>
      obtain ⟨e', he', hp, hw⟩ := lastWriteVal_mem t c i w ht
      rw [hall e' (by simp [he']) hp] at hw
      injection hw with hw
      subst hw
      rfl
    | none =>
      obtain ⟨e', he', hp⟩ := hex
      rcases List.mem_cons.mp he' with rfl | hmem
      · rw [if_pos hp, hall e' (by simp) hp]
      · have hsome := ih ⟨e', hmem, hp⟩
          (fun e'' he'' hp' => hall e'' (by simp [he'']) hp')
        rw [hsome] at ht
        exact absurd ht (by simp)

theorem makeOutputDict_same_set (s : KeylayoutParser) (e0 : KeyEntry)
    (rest : List KeyEntry) (d' : List (Int × List (Int × PyStr)))
    (hol : s.output_list = e0 :: rest)
    (hset : ∀ e ∈ rest, e.keymap_set = e0.keymap_set)
    (hd' : writeLoop (initFold s.number_of_keymaps (e0 :: rest) s.output_dict)
      (e0 :: rest) = .ok d') :
    makeOutputDict s = .ok { s with output_dict := d' } := by
  rw [makeOutputDict_eq s e0 rest hol]
  have hall : ∀ e ∈ e0 :: rest, e.keymap_set = e0.keymap_set := by
    intro e he
    rcases List.mem_cons.mp he with rfl | hm
    · rfl
    · exact hset e hm
  have hfl := filterLoop_no_removal e0.keymap_set s.number_of_keymaps
    (e0 :: rest) hall ((e0 :: rest).length + 1) 0 s.output_dict (by omega)
  rw [List.drop_zero] at hfl
  simp only [hfl]
  rw [hd']
  rw [← hol]

/-! ## C9: literal keys pass through unchanged -/

/-- C9 (amended): a key bound directly to a literal codepoint (kind
`output`, no action reference) keeps exactly that codepoint in the final
output table through `findDeadkeys`, `matchActions`, `findOutputs` and
`makeOutputDict`, with no rewrite and no dead-key marker — provided the
codepoint string does not collide with a registered action id (it is neither
in the resolved empty-action list nor a key of the resolved BaseKeyRegistry;
the counterexample shows such a collision breaks the round trip), the
builder starts on fresh output structures, all keys lie in a single keymap
set, no other key entry occupies the same (key code, keymap index), the
number of keymaps is nonnegative, and every key row admits an output
value. -/
theorem c9_literal_key_roundtrip (s s₁ : KeylayoutParser) (e : KeyEntry)
    (cp : String)
    (hfd : findDeadkeys s = .ok s₁)
    (he : e ∈ s.key_list)
    (hres : e.result = some cp) (hext : e.ext = [])
    (hol : s.output_list = []) (hod : s.output_dict = [])
    (hn : 0 ≤ s.number_of_keymaps)
    (hset : ∀ e' ∈ s.key_list, e'.keymap_set = e.keymap_set)
    (huniq : ∀ e' ∈ s.key_list,
      e'.key_code = e.key_code ∧ e'.key_index = e.key_index → e' = e)
    (hne : (some cp : PyStr) ∉ (matchActions s₁).empty_actions)
    (hnb : alookup (matchActions s₁).action_basekeys (some cp) = none)
    (hwv : ∀ e' ∈ s.key_list,
      (writeValue (transformKey (matchActions s₁).empty_actions
        (matchActions s₁).action_basekeys e')).isOk = true) :
    ∃ s', fourStages s = .ok s' ∧
      lookup2 s'.output_dict e.key_code e.key_index = some (some cp) := by
  obtain ⟨hkl, hol1, hod1, _, hnk, _⟩ := findDeadkeys_preserves s s₁ hfd
  have hkl₂ : (matchActions s₁).key_list = s.key_list := hkl
  have hol₂ : (matchActions s₁).output_list = [] := by
    show s₁.output_list = []
    rw [hol1, hol]
  have hod₂ : (matchActions s₁).output_dict = [] := by
    show s₁.output_dict = []
    rw [hod1, hod]
  have hnk₂ : (matchActions s₁).number_of_keymaps = s.number_of_keymaps := hnk
  have hfo : findOutputs (matchActions s₁) =
      { matchActions s₁ with
        key_list := s.key_list.map (transformKey (matchActions s₁).empty_actions
          (matchActions s₁).action_basekeys)
        output_list := s.key_list.map (transformKey (matchActions s₁).empty_actions
          (matchActions s₁).action_basekeys) } := by
    unfold findOutputs
    rw [hkl₂, hol₂]
    rfl
  have hTe : transformKey (matchActions s₁).empty_actions
      (matchActions s₁).action_basekeys e = e :=
    transformKey_id _ _ e (by rw [hres]; exact hne) (by rw [hres]; exact hnb)
  have heL : e ∈ s.key_list.map (transformKey (matchActions s₁).empty_actions
      (matchActions s₁).action_basekeys) := by
    have hm := List.mem_map_of_mem (transformKey (matchActions s₁).empty_actions
      (matchActions s₁).action_basekeys) he
    rwa [hTe] at hm
  have hLset : ∀ e' ∈ s.key_list.map (transformKey (matchActions s₁).empty_actions
      (matchActions s₁).action_basekeys), e'.keymap_set = e.keymap_set := by
    intro e' he'
    obtain ⟨a, ha, rfl⟩ := List.mem_map.mp he'
    rw [(transformKey_fields _ _ a).1]
    exact hset a ha
  obtain ⟨e0, rest, hLcons⟩ := List.exists_cons_of_ne_nil
    (show s.key_list.map (transformKey (matchActions s₁).empty_actions
      (matchActions s₁).action_basekeys) ≠ [] from
      fun hc => by rw [hc] at heL; exact absurd heL (by simp))
  have hrow_ne : initRow s.number_of_keymaps ≠ [] := initRow_ne_nil _ hn
  have hwv' : ∀ e' ∈ s.key_list.map (transformKey (matchActions s₁).empty_actions
      (matchActions s₁).action_basekeys), (writeValue e').isOk = true := by
    intro e' he'
    obtain ⟨a, ha, rfl⟩ := List.mem_map.mp he'
    exact hwv a ha
  obtain ⟨d', hd'⟩ := writeLoop_ok
    (s.key_list.map (transformKey (matchActions s₁).empty_actions
      (matchActions s₁).action_basekeys))
    (initFold s.number_of_keymaps
      (s.key_list.map (transformKey (matchActions s₁).empty_actions
        (matchActions s₁).action_basekeys)) [])
    (by
      intro e' he'
      refine ⟨hwv' e' he', ?_⟩
      rw [initFold_lookup _ hrow_ne]
      rw [if_pos (List.mem_map_of_mem KeyEntry.key_code he')]
      rfl)
  have hmk := makeOutputDict_same_set
    { matchActions s₁ with
      key_list := s.key_list.map (transformKey (matchActions s₁).empty_actions
        (matchActions s₁).action_basekeys)
      output_list := s.key_list.map (transformKey (matchActions s₁).empty_actions
        (matchActions s₁).action_basekeys) }
    e0 rest d' hLcons
    (by
      intro e' he'
      have h1 : e' ∈ s.key_list.map (transformKey (matchActions s₁).empty_actions
          (matchActions s₁).action_basekeys) := by
        rw [hLcons]
        simp [he']
      have h2 : e0 ∈ s.key_list.map (transformKey (matchActions s₁).empty_actions
          (matchActions s₁).action_basekeys) := by
        rw [hLcons]
        simp
      rw [hLset e' h1, hLset e0 h2])
    (by
      show writeLoop (initFold (matchActions s₁).number_of_keymaps (e0 :: rest)
        (matchActions s₁).output_dict) (e0 :: rest) = .ok d'
      rw [hnk₂, hod₂, ← hLcons]
      exact hd')
  have hfour : fourStages s = .ok
      { matchActions s₁ with
        key_list := s.key_list.map (transformKey (matchActions s₁).empty_actions
          (matchActions s₁).action_basekeys)
        output_list := s.key_list.map (transformKey (matchActions s₁).empty_actions
          (matchActions s₁).action_basekeys)
        output_dict := d' } := by
    unfold fourStages
    rw [hfd]
    show makeOutputDict (findOutputs (matchActions s₁)) = _
    rw [hfo, hmk]
  refine ⟨_, hfour, ?_⟩
  show lookup2 d' e.key_code e.key_index = some (some cp)
  have hlw : lastWriteVal (s.key_list.map (transformKey (matchActions s₁).empty_actions
      (matchActions s₁).action_basekeys)) e.key_code e.key_index =
      some (some cp) := by
    apply lastWriteVal_const
    · exact ⟨e, heL, rfl, rfl⟩
    · intro e' he' hp
      obtain ⟨a, ha, rfl⟩ := List.mem_map.mp he'
      have hac : a.key_code = e.key_code := by
        rw [← (transformKey_fields (matchActions s₁).empty_actions
          (matchActions s₁).action_basekeys a).2.2]
        exact hp.1
      have hai : a.key_index = e.key_index := by
        rw [← (transformKey_fields (matchActions s₁).empty_actions
          (matchActions s₁).action_basekeys a).2.1]
        exact hp.2
      have hae : a = e := huniq a ha ⟨hac, hai⟩
      subst hae
      rw [hTe]
      unfold writeValue
      rw [hext, hres]
  rw [writeLoop_lookup2 _ _ _ hd' e.key_code e.key_index, hlw]
  rfl

/-- C9 (witness): a literal key `0061` on key code 5 with a non-colliding
action registry survives all four stages unchanged. -/
theorem c9_witness :
    ∃ s', fourStages
      { initParser with
        key_list := [⟨"k1", 0, 5, "output", some "0061", []⟩]
        action_list := [⟨some "7", "none", "output", some "0041", []⟩]
        action_basekeys := [(some "7", some "0041")]
        number_of_keymaps := 0 } = .ok s' ∧
      lookup2 s'.output_dict 5 0 = some (some "0061") := by
  exact c9_literal_key_roundtrip _ _ ⟨"k1", 0, 5, "output", some "0061", []⟩
    "0061" rfl (by decide) rfl rfl rfl rfl (by decide) (by decide) (by decide)
    (by decide) (by decide) (by decide)

/-! ## C8: re-running the Output Table Builder -/

theorem map_fix {α : Type} (f : α → α) (l : List α) (h : ∀ a ∈ l, f a = a) :
    l.map f = l := by
  induction l with
  | nil => rfl
  | cons a t ih =>
    rw [List.map_cons, h a (by simp), ih (fun a' ha' => h a' (by simp [ha']))]

theorem writeLoop_append (l₁ l₂ : List KeyEntry)
    (d d₁ : List (Int × List (Int × PyStr)))
    (h : writeLoop d l₁ = .ok d₁) :
    writeLoop d (l₁ ++ l₂) = writeLoop d₁ l₂ := by
  induction l₁ generalizing d with
  | nil =>
    simp only [writeLoop] at h
    injection h with h
    subst h
    rfl
  | cons e t ih =>
    rw [writeLoop_cons] at h
    rw [List.cons_append, writeLoop_cons]
    cases hw : writeValue e with
    | error m =>
      simp only [hw] at h
      exact absurd h (by simp)
    | ok v =>
      simp only [hw] at h ⊢
      cases hd : alookup d e.key_code with
      | none =>
        simp only [hd] at h
        exact absurd h (by simp)
      | some inner =>
        simp only [hd] at h ⊢
        exact ih _ h

theorem writeLoop_ok_entries (l : List KeyEntry) :
    ∀ (d d' : List (Int × List (Int × PyStr))),
    writeLoop d l = .ok d' →
    ∀ e ∈ l, (writeValue e).isOk = true := by
  induction l with
  | nil => intro d d' _ e he; exact absurd he (by simp)
  | cons e t ih =>
    intro d d' h e' he'
    rw [writeLoop_cons] at h
    cases hw : writeValue e with
    | error m =>
      simp only [hw] at h
      exact absurd h (by simp)
    | ok v =>
      simp only [hw] at h
      cases hd : alookup d e.key_code with
      | none =>
        simp only [hd] at h
        exact absurd h (by simp)
      | some inner =>
        simp only [hd] at h
        rcases List.mem_cons.mp he' with rfl | hm
        · rw [hw]; rfl
        · exact ih _ _ h e' hm

theorem lastWriteVal_append (l₁ l₂ : List KeyEntry) (c i : Int) :
    lastWriteVal (l₁ ++ l₂) c i =
      firstSome (lastWriteVal l₂ c i) (lastWriteVal l₁ c i) := by
  induction l₁ with
  | nil => cases h : lastWriteVal l₂ c i <;> simp [lastWriteVal, firstSome, h]
  | cons e t ih =>
    rw [List.cons_append, lastWriteVal, ih, lastWriteVal]
    cases h2 : lastWriteVal l₂ c i with
    | some w => rfl
    | none => rfl

theorem lookup2_initFold (n : Int) (hn : initRow n ≠ []) (l : List KeyEntry)
    (d : List (Int × List (Int × PyStr))) (c i : Int) :
    lookup2 (initFold n l d) c i =
      if c ∈ l.map KeyEntry.key_code then alookup (initRow n) i
      else lookup2 d c i := by
  unfold lookup2
  rw [initFold_lookup n hn]
  by_cases hc : c ∈ l.map KeyEntry.key_code
  · rw [if_pos hc, if_pos hc]
  · rw [if_neg hc, if_neg hc]

theorem initFold_isSome (n : Int) (hn : initRow n ≠ []) (l : List KeyEntry)
    (d : List (Int × List (Int × PyStr))) (c : Int) :
    (alookup (initFold n l d) c).isSome =
      (if c ∈ l.map KeyEntry.key_code then true else (alookup d c).isSome) := by
  rw [initFold_lookup n hn]
  by_cases hc : c ∈ l.map KeyEntry.key_code
  · rw [if_pos hc, if_pos hc]
    rfl
  · rw [if_neg hc, if_neg hc]

/-- C8 (amended): re-running the Output Table Builder (`findOutputs` then
`makeOutputDict`) on the state left by a successful first run — with
BaseKeyRegistry, the empty-action list and ModifierStateAssignment all
unchanged — yields an output table equal (as a mapping) to the first run's,
provided the builder started on fresh output structures, all keys lie in a
single keymap set, and no resolved output value collides with a registered
action id (is in the empty-action list or a key of BaseKeyRegistry); the
counterexample shows that such a collision makes the second run rewrite
outputs again and produce a different table. -/
theorem c8_builder_idempotent (s s₁ : KeylayoutParser)
    (hol : s.output_list = []) (hod : s.output_dict = [])
    (hn : 0 ≤ s.number_of_keymaps)
    (hnil : s.key_list ≠ [])
    (hset : ∀ e' ∈ s.key_list, ∀ e'' ∈ s.key_list,
      e'.keymap_set = e''.keymap_set)
    (hcf : ∀ e' ∈ s.key_list.map (transformKey s.empty_actions s.action_basekeys),
      e'.result ∉ s.empty_actions ∧ alookup s.action_basekeys e'.result = none)
    (h1 : outputTableBuilder s = .ok s₁) :
    ∃ s₂, outputTableBuilder s₁ = .ok s₂ ∧
      outputDictEq s₂.output_dict s₁.output_dict := by
  have hrow_ne : initRow s.number_of_keymaps ≠ [] := initRow_ne_nil _ hn
  -- decompose the first run
  have hfo : findOutputs s =
      { s with
        key_list := s.key_list.map (transformKey s.empty_actions s.action_basekeys)
        output_list := s.key_list.map (transformKey s.empty_actions s.action_basekeys) } := by
    unfold findOutputs
    rw [hol]
    rfl
  have hLnil : s.key_list.map (transformKey s.empty_actions s.action_basekeys) ≠ [] := by
    intro hc
    exact hnil (List.map_eq_nil_iff.mp hc)
  obtain ⟨e0, rest, hLcons⟩ := List.exists_cons_of_ne_nil hLnil
  have hLset : ∀ e' ∈ s.key_list.map (transformKey s.empty_actions s.action_basekeys),
      ∀ e'' ∈ s.key_list.map (transformKey s.empty_actions s.action_basekeys),
      e'.keymap_set = e''.keymap_set := by
    intro e' he' e'' he''
    obtain ⟨a, ha, rfl⟩ := List.mem_map.mp he'
    obtain ⟨b, hb, rfl⟩ := List.mem_map.mp he''
    rw [(transformKey_fields _ _ a).1, (transformKey_fields _ _ b).1]
    exact hset a ha b hb
  -- extract the first run's write result
  rw [show outputTableBuilder s = makeOutputDict (findOutputs s) from rfl, hfo,
    makeOutputDict_eq _ e0 rest hLcons] at h1
  have hfl := filterLoop_no_removal e0.keymap_set s.number_of_keymaps
    (e0 :: rest)
    (by
      intro e' he'
      rw [← hLcons] at he'
      exact hLset e' he' e0 (by rw [hLcons]; simp))
    ((e0 :: rest).length + 1) 0
    ({ s with
        key_list := s.key_list.map (transformKey s.empty_actions s.action_basekeys)
        output_list := s.key_list.map (transformKey s.empty_actions s.action_basekeys) } :
      KeylayoutParser).output_dict (by omega)
  rw [List.drop_zero] at hfl
  rw [hfl] at h1
  simp only [] at h1
  cases hw1 : writeLoop
      (initFold s.number_of_keymaps (e0 :: rest)
        ({ s with
            key_list := s.key_list.map (transformKey s.empty_actions s.action_basekeys)
            output_list := s.key_list.map (transformKey s.empty_actions s.action_basekeys) } :
          KeylayoutParser).output_dict)
      (e0 :: rest) with
  | error m =>
    rw [hw1] at h1
    exact absurd h1 (by simp)
  | ok d₁ =>
    rw [hw1] at h1
    injection h1 with h1
    subst h1
    -- the first run's base dictionary is over the empty table
    have hw1' : writeLoop (initFold s.number_of_keymaps (e0 :: rest) []) (e0 :: rest) =
        .ok d₁ := by
      rw [← hw1]
      show writeLoop (initFold s.number_of_keymaps (e0 :: rest) []) (e0 :: rest) =
        writeLoop (initFold s.number_of_keymaps (e0 :: rest) s.output_dict) (e0 :: rest)
      rw [hod]
    -- the second findOutputs fixes every entry
    have hTfix : ∀ e' ∈ s.key_list.map (transformKey s.empty_actions s.action_basekeys),
        transformKey s.empty_actions s.action_basekeys e' = e' := by
      intro e' he'
      exact transformKey_id _ _ e' (hcf e' he').1 (hcf e' he').2
    have hmapfix : (s.key_list.map (transformKey s.empty_actions s.action_basekeys)).map
        (transformKey s.empty_actions s.action_basekeys) =
        s.key_list.map (transformKey s.empty_actions s.action_basekeys) :=
      map_fix _ _ hTfix
    have hfix2 : (e0 :: rest).map (transformKey s.empty_actions s.action_basekeys) =
        e0 :: rest := by
      rw [← hLcons]
      exact hmapfix
    have hfo₂ : findOutputs
        { s with
          key_list := s.key_list.map (transformKey s.empty_actions s.action_basekeys)
          output_list := e0 :: rest
          output_dict := d₁ } =
        { s with
          key_list := s.key_list.map (transformKey s.empty_actions s.action_basekeys)
          output_list := (e0 :: rest) ++ (e0 :: rest)
          output_dict := d₁ } := by
      unfold findOutputs
      simp only [hmapfix, hfix2]
      rw [hLcons]
    -- the second write loop succeeds
    have hok2 : ∀ e' ∈ (e0 :: rest) ++ (e0 :: rest), (writeValue e').isOk = true := by
      intro e' he'
      rcases List.mem_append.mp he' with hm | hm
      · exact writeLoop_ok_entries _ _ _ hw1' e' hm
      · exact writeLoop_ok_entries _ _ _ hw1' e' hm
    obtain ⟨d₂, hw2⟩ := writeLoop_ok ((e0 :: rest) ++ (e0 :: rest))
      (initFold s.number_of_keymaps ((e0 :: rest) ++ (e0 :: rest)) d₁)
      (by
        intro e' he'
        refine ⟨hok2 e' he', ?_⟩
        rw [initFold_isSome _ hrow_ne]
        rw [if_pos (List.mem_map_of_mem KeyEntry.key_code he')])
    -- run makeOutputDict on the doubled output list
    have hmk₂ := makeOutputDict_same_set
      { s with
        key_list := s.key_list.map (transformKey s.empty_actions s.action_basekeys)
        output_list := (e0 :: rest) ++ (e0 :: rest)
        output_dict := d₁ }
      e0 (rest ++ (e0 :: rest)) d₂
      rfl
      (by
        intro e' he'
        have he'm : e' ∈ s.key_list.map
            (transformKey s.empty_actions s.action_basekeys) := by
          rcases List.mem_append.mp he' with hm | hm
          · rw [hLcons]; exact List.mem_cons_of_mem e0 hm
          · rw [hLcons]; exact hm
        exact hLset e' he'm e0 (by rw [hLcons]; simp))
      (by
        show writeLoop (initFold s.number_of_keymaps (e0 :: (rest ++ (e0 :: rest))) d₁)
          (e0 :: (rest ++ (e0 :: rest))) = .ok d₂
        exact hw2)
    refine ⟨{ s with
        key_list := s.key_list.map (transformKey s.empty_actions s.action_basekeys)
        output_list := (e0 :: rest) ++ (e0 :: rest)
        output_dict := d₂ }, ?_, ?_⟩
    · show makeOutputDict (findOutputs _) = _
      rw [hfo₂]
      exact hmk₂
    · -- extensional equality of the two tables
      show outputDictEq d₂ d₁
      have hkeys₂ := writeLoop_keys _ _ _ hw2
      have hkeys₁ := writeLoop_keys _ _ _ hw1'
      have hlk₂ := writeLoop_lookup2 _ _ _ hw2
      have hlk₁ := writeLoop_lookup2 _ _ _ hw1'
      constructor
      · intro c
        rw [hkeys₂ c, hkeys₁ c, initFold_isSome _ hrow_ne, initFold_isSome _ hrow_ne]
        by_cases hc : c ∈ (e0 :: rest).map KeyEntry.key_code
        · rw [if_pos hc, if_pos (by
            rw [List.map_append]
            exact List.mem_append.mpr (Or.inl hc))]
        · rw [if_neg hc, if_neg (by
            rw [List.map_append]
            intro hm
            rcases List.mem_append.mp hm with hm | hm <;> exact hc hm)]
          rw [hkeys₁ c, initFold_isSome _ hrow_ne, if_neg hc]
      · intro c i
        rw [hlk₂ c i, hlk₁ c i]
        rw [lastWriteVal_append]
        cases hlw : lastWriteVal (e0 :: rest) c i with
        | some v => rfl
        | none =>
          simp only [firstSome]
          rw [lookup2_initFold _ hrow_ne, lookup2_initFold _ hrow_ne]
          by_cases hc : c ∈ (e0 :: rest).map KeyEntry.key_code
          · rw [if_pos hc, if_pos (by
              rw [List.map_append]
              exact List.mem_append.mpr (Or.inl hc))]
          · rw [if_neg hc, if_neg (by
              rw [List.map_append]
              intro hm
              rcases List.mem_append.mp hm with hm | hm <;> exact hc hm)]
            rw [hlk₁ c i, hlw]
            simp only [firstSome]
            rw [lookup2_initFold _ hrow_ne, if_neg hc]

/-- C8 (witness): a one-key state whose resolved output `0041` collides with
no action id; the second builder run reproduces the first run's table. -/
theorem c8_witness :
    ∃ s₂, (outputTableBuilder
        { initParser with
          key_list := [⟨"k1", 0, 5, "action", some "1", []⟩]
          action_basekeys := [(some "1", some "0041")]
          number_of_keymaps := 0 }).bind outputTableBuilder = .ok s₂ ∧
      outputDictEq s₂.output_dict [(5, [(0, some "0041")])] := by
  obtain ⟨s₂, h2, heq⟩ := c8_builder_idempotent
    { initParser with
      key_list := [⟨"k1", 0, 5, "action", some "1", []⟩]
      action_basekeys := [(some "1", some "0041")]
      number_of_keymaps := 0 }
    _ rfl rfl (by decide) (by decide) (by decide) (by decide) rfl
  refine ⟨s₂, ?_, heq⟩
  show ((Except.ok _ : Except String KeylayoutParser).bind outputTableBuilder) = _
  simpa using h2

/-! ## C3: the engine after a successful `parse` -/

theorem parse_init_fields (tree : Tree) (s : KeylayoutParser)
    (h : parse tree = .ok s) :
    s.output_list = [] ∧ s.output_dict = [] ∧ s.deadkeys = [] ∧
    s.empty_actions = [] ∧ s.key_dict = [] := by
  unfold parse at h
  cases hpt : parseTree tree
      { idx_list := [], key_list := [], action_list := []
        action_basekeys := [], keymap_assignments := [] } with
  | error m =>
    simp only [hpt, bind, Except.bind] at h
    exact absurd h (by simp)
  | ok acc =>
    simp only [hpt, bind, Except.bind] at h
    cases hmx : maxInt acc.idx_list with
    | none =>
      rw [hmx] at h
      exact absurd h (by simp)
    | some m =>
      rw [hmx] at h
      injection h with h
      subst h
      exact ⟨rfl, rfl, rfl, rfl, rfl⟩

theorem findDeadkeysLoop_values (l : List ActionEntry) :
    ∀ (dkid : Option (Option String)) (dk : List (String × PyStr))
      (pairs : List (Option String × PyStr)) (ea : List (Option String)) r,
    findDeadkeysLoop l dkid dk pairs ea = .ok r →
    (∀ e ∈ l, e.result ≠ none) →
    (∀ q ∈ dk, q.2 ≠ none) → (∀ q ∈ pairs, q.2 ≠ none) →
    (∀ q ∈ r.2.1, q.2 ≠ none) ∧ (∀ q ∈ r.2.2.1, q.2 ≠ none) := by
  induction l with
  | nil =>
    intro dkid dk pairs ea r h _ hdk hpr
    simp only [findDeadkeysLoop] at h
    injection h with h
    subst h
    exact ⟨hdk, hpr⟩
  | cons e t ih =>
    intro dkid dk pairs ea r h hres hdk hpr
    by_cases hx : e.ext = []
    · rw [findDeadkeysLoop_cons e t dkid dk pairs ea hx] at h
      refine ih _ _ _ _ r h (fun e' he' => hres e' (by simp [he'])) ?_ ?_
      · by_cases hc : some e.action =
            (if e.state = "none" ∧ e.action_type = "output" ∧
              e.result = some "0020" then some e.action else dkid) ∧
            e.result ≠ some "0020"
        · rw [if_pos hc]
          exact dset_snd_pred (fun v : PyStr => v ≠ none) dk e.state e.result
            hdk (hres e (by simp))
        · rw [if_neg hc]
          exact hdk
      · split
        · intro q hq
          rcases List.mem_append.mp hq with hm | hm
          · exact hpr q hm
          · simp only [List.mem_singleton] at hm
            subst hm
            exact hres e (by simp)
        · exact hpr
    · rw [findDeadkeysLoop_cons_error e t dkid dk pairs ea hx] at h
      exact absurd h (by simp)

theorem findDeadkeysLoop_pairs_mono (l : List ActionEntry) :
    ∀ (dkid : Option (Option String)) (dk : List (String × PyStr))
      (pairs : List (Option String × PyStr)) (ea : List (Option String)) r,
    findDeadkeysLoop l dkid dk pairs ea = .ok r →
    ∀ q ∈ pairs, q ∈ r.2.2.1 := by
  induction l with
  | nil =>
    intro dkid dk pairs ea r h q hq
    simp only [findDeadkeysLoop] at h
    injection h with h
    subst h
    exact hq
  | cons e t ih =>
    intro dkid dk pairs ea r h q hq
    by_cases hx : e.ext = []
    · rw [findDeadkeysLoop_cons e t dkid dk pairs ea hx] at h
      refine ih _ _ _ _ r h q ?_
      split
      · exact List.mem_append.mpr (Or.inl hq)
      · exact hq
    · rw [findDeadkeysLoop_cons_error e t dkid dk pairs ea hx] at h
      exact absurd h (by simp)

theorem findDeadkeysLoop_ea_src (l : List ActionEntry) :
    ∀ (dkid : Option (Option String)) (dk : List (String × PyStr))
      (pairs : List (Option String × PyStr)) (ea : List (Option String)) r,
    findDeadkeysLoop l dkid dk pairs ea = .ok r →
    ∀ a ∈ r.2.2.2, a ∈ ea ∨ a ∈ r.2.2.1.map Prod.fst := by
  induction l with
  | nil =>
    intro dkid dk pairs ea r h a ha
    simp only [findDeadkeysLoop] at h
    injection h with h
    subst h
    exact Or.inl ha
  | cons e t ih =>
    intro dkid dk pairs ea r h a ha
    by_cases hx : e.ext = []
    · rw [findDeadkeysLoop_cons e t dkid dk pairs ea hx] at h
      rcases ih _ _ _ _ r h a ha with hm | hm
      · by_cases hc : e.state = "none" ∧ e.action_type = "next"
        · rw [if_pos hc] at hm
          rcases List.mem_append.mp hm with hm2 | hm2
          · exact Or.inl hm2
          · simp only [List.mem_singleton] at hm2
            subst hm2
            have hp : (e.action, e.result) ∈ r.2.2.1 := by
              refine findDeadkeysLoop_pairs_mono t _ _ _ _ r h _ ?_
              rw [if_pos hc]
              exact List.mem_append.mpr (Or.inr (by simp))
            exact Or.inr (by
              refine List.mem_map.mpr ⟨(e.action, e.result), hp, rfl⟩)
        · rw [if_neg hc] at hm
          exact Or.inl hm
      · exact Or.inr hm
    · rw [findDeadkeysLoop_cons_error e t dkid dk pairs ea hx] at h
      exact absurd h (by simp)

theorem resolvePairs_fst (dk : List (String × PyStr))
    (pairs : List (Option String × PyStr)) :
    (resolvePairs dk pairs).map Prod.fst = pairs.map Prod.fst := by
  induction pairs with
  | nil => rfl
  | cons q t ih =>
    obtain ⟨a, v⟩ := q
    simp only [resolvePairs, List.map_cons, ih]

theorem resolvePairs_values (dk : List (String × PyStr))
    (pairs : List (Option String × PyStr))
    (hdk : ∀ q ∈ dk, q.2 ≠ none) (hpr : ∀ q ∈ pairs, q.2 ≠ none) :
    ∀ q ∈ resolvePairs dk pairs, q.2 ≠ none := by
  induction pairs with
  | nil => intro q hq; exact absurd hq (by simp [resolvePairs])
  | cons p t ih =>
    obtain ⟨a, v⟩ := p
    intro q hq
    simp only [resolvePairs, List.mem_cons] at hq
    rcases hq with rfl | hq
    · have hv := hpr (a, v) (by simp)
      cases v with
      | none => exact absurd rfl hv
      | some str =>
        cases hl : alookup dk str with
        | none => simp [hl]
        | some w =>
          simp only [hl]
          exact hdk (str, w) (alookup_mem dk str w hl)
    · exact ih (fun q' hq' => hpr q' (by simp [hq'])) q hq

theorem matchActionsLoop_values (l : List ActionEntry) :
    ∀ (abk : List (Option String × PyStr)),
    (∀ p ∈ abk, p.2 ≠ none) → (∀ e ∈ l, e.result ≠ none) →
    ∀ p ∈ (matchActionsLoop abk l).1, p.2 ≠ none := by
  induction l with
  | nil => intro abk habk _; exact habk
  | cons e t ih =>
    intro abk habk hres
    simp only [matchActionsLoop]
    apply ih
    · split
      · exact dset_snd_pred (fun v : PyStr => v ≠ none) abk _ _ habk
          (hres e (by simp))
      · exact habk
    · exact fun e' he' => hres e' (by simp [he'])

theorem matchActionsLoop_keys_mono (l : List ActionEntry) :
    ∀ (abk : List (Option String × PyStr)) (a : Option String),
    (alookup abk a).isSome = true →
    (alookup (matchActionsLoop abk l).1 a).isSome = true := by
  induction l with
  | nil => intro abk a h; exact h
  | cons e t ih =>
    intro abk a h
    simp only [matchActionsLoop]
    apply ih
    split
    · rw [alookup_dset_isSome]
      split
      · rfl
      · exact h
    · exact h

theorem writeValue_transformKey_ok (ea : List (Option String))
    (abk : List (Option String × PyStr)) (a : KeyEntry)
    (hext : a.ext = [])
    (habk : ∀ p ∈ abk, p.2 ≠ none)
    (hea : ∀ x ∈ ea, (alookup abk x).isSome = true) :
    (writeValue (transformKey ea abk a)).isOk = true := by
  unfold transformKey
  by_cases hm : a.result ∈ ea
  · rw [if_pos hm]
    have hs := hea a.result hm
    obtain ⟨v, hv⟩ := Option.isSome_iff_exists.mp hs
    have hvm := alookup_mem abk a.result v hv
    have hvn : v ≠ none := habk (a.result, v) hvm
    obtain ⟨str, hstr⟩ := Option.ne_none_iff_exists'.mp hvn
    show (writeValue
      (match alookup abk ({ a with ext := a.ext ++ ["@"] } : KeyEntry).result with
       | some v => { ({ a with ext := a.ext ++ ["@"] } : KeyEntry) with
           key_type := "output", result := v }
       | none => { a with ext := a.ext ++ ["@"] })).isOk = true
    rw [show ({ a with ext := a.ext ++ ["@"] } : KeyEntry).result = a.result from rfl,
        hv, hstr]
    unfold writeValue
    rw [hext]
    rfl
  · rw [if_neg hm]
    cases hl : alookup abk a.result with
    | none => simp [writeValue, hl, hext, Except.isOk, Except.toBool]
    | some v => simp [writeValue, hl, hext, Except.isOk, Except.toBool]

/-- C3 (amended): the resolution engine can raise on degenerate trees (see
the counterexample: `parse` raises on a tree with no keymap-select entries,
and `makeOutputDict` indexes an empty output list), but on every tree whose
parse succeeds with at least one key, all keys in a single keymap set,
action entries that carry ids' results, and a nonnegative keymap count, the
remaining stages (`findDeadkeys`, `matchActions`, `findOutputs`,
`makeDeadKeyTable`, `makeOutputDict`) complete without raising, and
`getOutput` answers every failed lookup with the sentinel `'-1'` instead of
propagating an error. -/
theorem c3_engine_no_raise (tree : Tree) (s₀ : KeylayoutParser)
    (hp : parse tree = .ok s₀)
    (H1 : ∀ e ∈ s₀.action_list, e.ext = [])
    (H2 : ∀ e ∈ s₀.action_list, e.result ≠ none)
    (H3 : ∀ p ∈ s₀.action_basekeys, p.2 ≠ none)
    (H4 : s₀.key_list ≠ [])
    (H5 : ∀ e' ∈ s₀.key_list, ∀ e'' ∈ s₀.key_list, e'.keymap_set = e''.keymap_set)
    (H6 : 0 ≤ s₀.number_of_keymaps)
    (H7 : ∀ e ∈ s₀.key_list, e.ext = []) :
    (resolveStages s₀).isOk = true ∧
    (∀ (sx : KeylayoutParser) (d : List (Int × PyStr)) (st : String),
      alookup sx.keymap_assignments st = none → getOutput sx d st = some "-1") := by
  obtain ⟨hol, hod, hdk0, hea0, _⟩ := parse_init_fields tree s₀ hp
  -- findDeadkeys succeeds
  obtain ⟨r, hr⟩ := findDeadkeysLoop_ok s₀.action_list H1 none s₀.deadkeys []
    s₀.empty_actions
  have hfd : findDeadkeys s₀ = .ok
      { s₀ with deadkeys := r.2.1, empty_actions := r.2.2.2,
                action_basekeys := (resolvePairs r.2.1 r.2.2.1).foldl
                  (fun m p => dset m p.1 p.2) s₀.action_basekeys } := by
    unfold findDeadkeys
    rw [hr]
    rfl
  have hvals := findDeadkeysLoop_values s₀.action_list _ _ _ _ r hr H2
    (by rw [hdk0]; intro q hq; exact absurd hq (by simp))
    (by intro q hq; exact absurd hq (by simp))
  -- the registry after findDeadkeys: values defined, empty-action ids present
  have habk₁ : ∀ p ∈ (resolvePairs r.2.1 r.2.2.1).foldl
      (fun m p => dset m p.1 p.2) s₀.action_basekeys, p.2 ≠ none :=
    foldl_dset_snd_pred (fun v : PyStr => v ≠ none) (resolvePairs r.2.1 r.2.2.1)
      s₀.action_basekeys H3 (resolvePairs_values _ _ hvals.1 hvals.2)
  have hea₁ : ∀ a ∈ r.2.2.2, (alookup ((resolvePairs r.2.1 r.2.2.1).foldl
      (fun m p => dset m p.1 p.2) s₀.action_basekeys) a).isSome = true := by
    intro a ha
    rcases findDeadkeysLoop_ea_src s₀.action_list _ _ _ _ r hr a ha with hm | hm
    · rw [hea0] at hm
      exact absurd hm (by simp)
    · refine alookup_foldl_dset_mem _ _ _ (Or.inr ?_)
      rw [resolvePairs_fst]
      exact hm
  -- matchActions preserves both properties
  have habk₂ : ∀ p ∈ (matchActions { s₀ with
      deadkeys := r.2.1
      empty_actions := r.2.2.2
      action_basekeys := (resolvePairs r.2.1 r.2.2.1).foldl
        (fun m p => dset m p.1 p.2) s₀.action_basekeys }).action_basekeys,
      p.2 ≠ none :=
    matchActionsLoop_values _ _ habk₁ H2
  have hea₂ : ∀ a ∈ r.2.2.2, (alookup (matchActions { s₀ with
      deadkeys := r.2.1
      empty_actions := r.2.2.2
      action_basekeys := (resolvePairs r.2.1 r.2.2.1).foldl
        (fun m p => dset m p.1 p.2) s₀.action_basekeys }).action_basekeys
      a).isSome = true :=
    fun a ha => matchActionsLoop_keys_mono _ _ a (hea₁ a ha)
  refine ⟨?_, fun sx d st hst => by simp [getOutput, hst]⟩
  -- name the state after matchActions
  set s₂ := matchActions { s₀ with
    deadkeys := r.2.1
    empty_actions := r.2.2.2
    action_basekeys := (resolvePairs r.2.1 r.2.2.1).foldl
      (fun m p => dset m p.1 p.2) s₀.action_basekeys } with hs₂
  have hkl₂ : s₂.key_list = s₀.key_list := rfl
  have hol₂ : s₂.output_list = [] := hol
  have hod₂ : s₂.output_dict = [] := hod
  have hea₂' : s₂.empty_actions = r.2.2.2 := rfl
  -- findOutputs and makeDeadKeyTable
  have hfo : findOutputs s₂ = { s₂ with
      key_list := s₀.key_list.map (transformKey s₂.empty_actions s₂.action_basekeys),
      output_list := s₀.key_list.map (transformKey s₂.empty_actions s₂.action_basekeys) } := by
    unfold findOutputs
    rw [hkl₂, hol₂]
    rfl
  obtain ⟨e0, rest, hLcons⟩ := List.exists_cons_of_ne_nil
    (show s₀.key_list.map (transformKey s₂.empty_actions s₂.action_basekeys) ≠ []
      from fun hc => H4 (List.map_eq_nil_iff.mp hc))
  have hrow_ne : initRow s₀.number_of_keymaps ≠ [] := initRow_ne_nil _ H6
  -- the final makeOutputDict succeeds
  obtain ⟨d', hd'⟩ := writeLoop_ok (e0 :: rest)
    (initFold s₀.number_of_keymaps (e0 :: rest) [])
    (by
      intro e' he'
      constructor
      · obtain ⟨a, ha, hae⟩ := List.mem_map.mp
          (show e' ∈ s₀.key_list.map
              (transformKey s₂.empty_actions s₂.action_basekeys) by
            rw [hLcons]; exact he')
        rw [← hae]
        exact writeValue_transformKey_ok _ _ a (H7 a ha) habk₂ hea₂
      · rw [initFold_isSome _ hrow_ne,
          if_pos (List.mem_map_of_mem KeyEntry.key_code he')])
  have hmk := makeOutputDict_same_set (makeDeadKeyTable (findOutputs s₂))
    e0 rest d'
    (by
      show (findOutputs s₂).output_list = e0 :: rest
      rw [hfo]
      exact hLcons)
    (by
      intro e' he'
      have h1 : e' ∈ s₀.key_list.map
          (transformKey s₂.empty_actions s₂.action_basekeys) := by
        rw [hLcons]
        exact List.mem_cons_of_mem e0 he'
      have h2 : e0 ∈ s₀.key_list.map
          (transformKey s₂.empty_actions s₂.action_basekeys) := by
        rw [hLcons]
        simp
      obtain ⟨a, ha, hae⟩ := List.mem_map.mp h1
      obtain ⟨b, hb, hbe⟩ := List.mem_map.mp h2
      rw [← hae, ← hbe, (transformKey_fields _ _ a).1, (transformKey_fields _ _ b).1]
      exact H5 a ha b hb)
    (by
      show writeLoop (initFold s₂.number_of_keymaps (e0 :: rest) s₂.output_dict)
        (e0 :: rest) = .ok d'
      rw [hod₂]
      show writeLoop (initFold s₀.number_of_keymaps (e0 :: rest) []) (e0 :: rest) =
        .ok d'
      exact hd')
  show (resolveStages s₀).isOk = true
  unfold resolveStages
  rw [hfd]
  show (makeOutputDict (makeDeadKeyTable (findOutputs s₂))).isOk = true
  rw [hmk]
  rfl

/-- C3 (witness): on the concrete well-formed tree `c3tree`, `parse`
succeeds and the remaining resolver stages complete without raising; a
lookup for an unassigned label reports `'-1'`. -/
theorem c3_witness :
    (resolveStages c3parsed).isOk = true ∧
    getOutput initParser [] "alt" = some "-1" := by
  obtain ⟨h1, h2⟩ := c3_engine_no_raise c3tree c3parsed rfl
    (by decide) (by decide) (by decide) (by decide) (by decide) (by decide)
    (by decide)
  exact ⟨h1, h2 initParser [] "alt" rfl⟩

end Mac2Win
